import Mathlib

/-!
Verification of the bufferedlinear_tools region-format convertor.

The development shallowly embeds the three source files chunk.rs,
region_file.rs and main.rs. Byte buffers are `List Nat`, all multi-byte
integers are big-endian as in the source, signed machine integers are
`Int` with explicit reductions modulo powers of two where the source
casts or wraps, and fallible code returns `Option` or `Except`: `none`
models a Rust panic (an out-of-bounds index or slice, an `unwrap`, or a
`todo!()` arm), `Except.error` a returned `ParseError`.
-/

set_option maxRecDepth 20000

namespace BufferedLinear

/-- Big-endian value of a byte list, as read by `uN::from_be_bytes`. -/
def beNat (l : List Nat) : Nat :=
  l.foldl (fun a b => 256 * a + b) 0

/-- Reinterpretation of an unsigned 32-bit value as a signed i32
(two-complement). -/
def toSigned32 (n : Nat) : Int :=
  if n < 2 ^ 31 then (n : Int) else (n : Int) - 2 ^ 32

/-- Reinterpretation of an unsigned 64-bit value as a signed i64
(two-complement). -/
def toSigned64 (n : Nat) : Int :=
  if n < 2 ^ 63 then (n : Int) else (n : Int) - 2 ^ 64

/-- Model of `i32::from_be_bytes` on a 4-byte slice. -/
def readI32 (l : List Nat) : Int := toSigned32 (beNat l)

/-- Model of `i64::from_be_bytes` on an 8-byte slice. -/
def readI64 (l : List Nat) : Int := toSigned64 (beNat l)

/-- Model of `u64::from_be_bytes` on an 8-byte slice. -/
def readU64 (l : List Nat) : Nat := beNat l

/-- The four big-endian bytes of a natural number taken modulo 2 ^ 32. -/
def beBytes4 (m : Nat) : List Nat :=
  [m / 2 ^ 24 % 256, m / 2 ^ 16 % 256, m / 2 ^ 8 % 256, m % 256]

/-- The eight big-endian bytes of a natural number taken modulo 2 ^ 64. -/
def beBytes8 (m : Nat) : List Nat :=
  [m / 2 ^ 56 % 256, m / 2 ^ 48 % 256, m / 2 ^ 40 % 256, m / 2 ^ 32 % 256,
   m / 2 ^ 24 % 256, m / 2 ^ 16 % 256, m / 2 ^ 8 % 256, m % 256]

/-- Model of `i32::to_be_bytes`: the four big-endian bytes of the value
reduced modulo 2 ^ 32 (the two-complement bit pattern). -/
def be32 (v : Int) : List Nat := beBytes4 (v % 2 ^ 32).toNat

/-- Model of `i64::to_be_bytes`: the eight big-endian bytes of the value
reduced modulo 2 ^ 64. -/
def be64 (v : Int) : List Nat := beBytes8 (v % 2 ^ 64).toNat

/-- Model of a Rust slice expression `&buf[s..s + n]`: `none` models the
out-of-bounds panic. -/
def slice (d : List Nat) (s n : Nat) : Option (List Nat) :=
  if s + n ≤ d.length then some ((d.drop s).take n) else none

/-- Model of an index expression `buf[i]`: `none` models the
out-of-bounds panic. -/
def byteAt (d : List Nat) (i : Nat) : Option Nat := d.get? i

/-- Modelled from the spec: the generic compressor collaborator of
spec section 6, `compress(bytes, level)` with `decompress` its inverse.
The zstd implementation lives outside this repository, so the pair is
modelled as the identity codec; the compression level is a write-time
hint with no effect on the modelled bytes. -/
def zstdEncodeAll (data : List Nat) (_level : Nat) : Option (List Nat) :=
  some data

/-- Modelled from the spec: decompression side of the compressor
collaborator of spec section 6, inverse of `zstdEncodeAll`. -/
def zstdDecodeAll (data : List Nat) : Option (List Nat) :=
  some data

/-- Modelled from the spec: the seeded 32-bit non-cryptographic checksum
collaborator of spec section 6 (xxHash32 from an external crate). The
decoder reads and discards it, so no claim depends on its exact values;
it is modelled as a simple seeded fold producing a value below 2 ^ 32. -/
def xxHash32 (seed : Nat) (data : List Nat) : Nat :=
  data.foldl (fun h b => (31 * h + b) % 2 ^ 32) (seed % 2 ^ 32)

/-- Model of a `Chunk` of chunk.rs. The i64 `position` field is kept as
its 64-bit two-complement bit pattern (a natural number below 2 ^ 64);
the source only ever casts and shifts it, never does signed arithmetic
on it. The tag-tree payload is the opaque collaborator of spec
section 6: a parsed `Tag` is identified with its raw byte form, and
`parse_tag` / `Tag::to_bytes` with the identity. -/
structure Chunk where
  position : Nat
  timestamp : Int
  data : List Nat
  deriving DecidableEq, Repr

namespace Chunk

/-- Model of `Chunk::new_from_block_pos`. The source packs
`((x as i64) << 32) | (z as i64 & 0xFFFFFFFF)`: on bit patterns this is
the low 32 bits of `x` shifted into the high half, plus the low 32 bits
of `z`; the two halves occupy disjoint bits, so the bitwise or is
addition, and `& 31`-style masking of a two-complement value is the
nonnegative remainder. -/
def new_from_block_pos (x z : Int) (timestamp : Int) (data : List Nat) : Chunk :=
  { position := (x % 2 ^ 32).toNat * 2 ^ 32 + (z % 2 ^ 32).toNat
    timestamp := timestamp
    data := data }

/-- Model of `Chunk::x`: `(self.position as u32) as i32` truncates the
position to its low 32 bits and reinterprets them as signed. -/
def x (c : Chunk) : Int := toSigned32 (c.position % 2 ^ 32)

/-- Model of `Chunk::z`: `((self.position as u64 >> 32) as u32) as i32`
takes the high 32 bits of the position, reinterpreted as signed. -/
def z (c : Chunk) : Int := toSigned32 (c.position / 2 ^ 32)

/-- Model of `Chunk::position_to_sector_index`. By Rust operator
precedence `(x & 31) as usize + ((z & 31) as usize) << 5` parses as
`((x & 31) + (z & 31)) << 5`; `& 31` on a two-complement i32 is the
nonnegative remainder modulo 32 and `<< 5` multiplies by 32. The result
is at most 1984, so the final `as i32` cast is exact. -/
def position_to_sector_index (c : Chunk) : Int :=
  (((c.x % 32).toNat + (c.z % 32).toNat) * 32 : Nat)

/-- Model of `Chunk::from_sector`: coordinates `sector_index & 31` and
`(sector_index >> 5) & 31` of the nonnegative loop index. The source
wraps the chunk in `Ok` and the caller always takes the `Ok` branch, so
the `Result` layer is dropped. -/
def from_sector (sector_index : Nat) (timestamp : Int) (data : List Nat) : Chunk :=
  new_from_block_pos (sector_index % 32 : Nat) (sector_index / 32 % 32 : Nat)
    timestamp data

/-- Model of `Chunk::to_raw_bytes`: the payload re-encoded by the opaque
tag codec, the identity in this model. -/
def to_raw_bytes (c : Chunk) : List Nat := c.data

end Chunk

/-- Model of the `ParseError` enum of region_file.rs; it has exactly
these three variants. -/
inductive ParseError where
  | ReadError
  | HeaderError
  | VersionError
  deriving DecidableEq, Repr

/-- Model of a `Region` of region_file.rs. -/
structure Region where
  chunks : List Chunk
  timestamp : Int
  deriving DecidableEq, Repr

namespace Region

/-- The blinear v2 magic constant `-0x200812250269` (an i64). -/
def blinearMagic : Int := -0x200812250269

/-- One slot of the blinear body: the body of `for index in 0..1024` in
`Region::to_bytes_blinear`. The first chunk of the container whose
sector index equals the slot index is serialized as
length-prefix, record length, timestamp, checksum, payload; an empty
slot contributes the four-byte zero marker. -/
def slotBlock (r : Region) (index : Nat) : List Nat :=
  match r.chunks.find? (fun c => c.position_to_sector_index == (index : Int)) with
  | none => be32 0
  | some c =>
    let chunk_data := c.to_raw_bytes
    let local_temp_buffer :=
      be32 (chunk_data.length : Int) ++ be64 c.timestamp
        ++ be32 (toSigned32 (xxHash32 0x0721 chunk_data)) ++ chunk_data
    be32 (local_temp_buffer.length : Int) ++ local_temp_buffer

/-- Model of `Region::to_bytes_blinear`. The 18-byte header holds the
magic, version 2, the master timestamp and the compression level byte;
the body accumulates one block per slot index 0..1024 and is then
compressed. The source appends the compressed body only when
compression succeeds (`if let Ok`). -/
def to_bytes_blinear (r : Region) (timestamp : Int) (compression_level : Nat) :
    List Nat :=
  let file_header :=
    be64 blinearMagic ++ [2] ++ be64 timestamp ++ [compression_level % 256]
  let region_data :=
    (List.range 1024).foldl (fun acc index => acc ++ slotBlock r index) []
  match zstdEncodeAll region_data compression_level with
  | some compressed => file_header ++ compressed
  | none => file_header

/-- Sector loop of `Region::from_bytes_blinear`: one step per sector
index, reading a four-byte record length and, when nonzero as a usize,
the record itself. The `as usize` cast sends a negative i32 length to a
huge unsigned value, so only a zero length is the empty-slot marker and
a negative one makes the record slice panic. -/
def processSectors (d : List Nat) : Nat → List Nat → Option (List Chunk)
  | _, [] => some []
  | ptr, sector_index :: rest => do
    let lenBytes ← slice d ptr 4
    let sector_len : Nat := ((readI32 lenBytes) % (2 ^ 64 : Int)).toNat
    if sector_len = 0 then
      processSectors d (ptr + 4) rest
    else do
      let sec ← slice d (ptr + 4) sector_len
      let _length_of_chunk ← slice sec 0 4
      let tsBytes ← slice sec 4 8
      let _xxhash32_of_chunk ← slice sec 12 4
      let data_of_chunk := sec.drop 16
      let chunks ← processSectors d (ptr + 4 + sector_len) rest
      return Chunk.from_sector sector_index (readI64 tsBytes) data_of_chunk :: chunks

/-- Model of `Region::from_bytes_blinear`. `none` models a panic,
`some (Except.error e)` a returned `ParseError`, `some (Except.ok r)`
success. The magic and version bytes are both read before either check,
as in the source. -/
def from_bytes_blinear (bytes : List Nat) : Option (Except ParseError Region) := do
  let headBytes ← slice bytes 0 8
  let versionBytes ← slice bytes 8 1
  if readI64 headBytes ≠ blinearMagic then
    return Except.error ParseError.HeaderError
  else if versionBytes.headI ≠ 2 then
    return Except.error ParseError.VersionError
  else do
    let tsBytes ← slice bytes 9 8
    let _compression_level ← slice bytes 17 1
    let body ← slice bytes 18 (bytes.length - 18)
    match zstdDecodeAll body with
    | none => return Except.error ParseError.ReadError
    | some decompressed => do
      let chunk_sections ← processSectors decompressed 0 (List.range 1024)
      return Except.ok { chunks := chunk_sections, timestamp := readI64 tsBytes }

/-- The linear v2 magic constant `0xc3ff13183cca9d9a` (a u64). -/
def linearMagic : Nat := 0xc3ff13183cca9d9a

/-- Feature-descriptor loop of `Region::from_bytes_linear_v2`: read a
one-byte name length, stop on zero, otherwise skip the name bytes plus
a four-byte value. The fuel only bounds the iteration count: every step
advances the pointer by at least five, so `bytes.length + 1` steps
always reach the zero terminator or an out-of-bounds panic first. -/
def skipFeatures (bytes : List Nat) : Nat → Nat → Option Nat
  | _, 0 => none
  | ptr, fuel + 1 => do
    let feature_name_length ← byteAt bytes ptr
    if feature_name_length = 0 then
      return ptr + 1
    else
      skipFeatures bytes (ptr + 1 + feature_name_length + 4) fuel

/-- Bucket-descriptor loop of `Region::from_bytes_linear_v2`: per bucket
a four-byte signed size, one compression-level byte (stored but never
used afterwards) and eight reserved bytes skipped without a read. -/
def readBucketSizes (bytes : List Nat) : Nat → Nat → List Int → Option (Nat × List Int)
  | ptr, 0, acc => some (ptr, acc)
  | ptr, n + 1, acc => do
    let sizeBytes ← slice bytes ptr 4
    let _compression_level_this_bucket ← byteAt bytes (ptr + 4)
    readBucketSizes bytes (ptr + 4 + 1 + 8) n (acc ++ [readI32 sizeBytes])

/-- Innermost record loop of `Region::from_bytes_linear_v2` (the `iz`
loop): threads the bucket-local read pointer and collects chunks. The
twelve-byte availability check performs the `break`, leaving the rest of
this `iz` loop unread without an error. -/
def readIzLoop (decompressed : List Nat) (region_x region_z : Int)
    (x z bucket_dim ix : Nat) :
    List Nat → Nat → Option (Nat × List Chunk)
  | [], rp => some (rp, [])
  | iz :: rest, rp =>
    if rp + 12 > decompressed.length then
      some (rp, [])
    else do
      let sizeBytes ← slice decompressed rp 4
      let chunk_size := readI32 sizeBytes
      let tsBytes ← slice decompressed (rp + 4) 8
      let chunk_timestamp := readI64 tsBytes
      if chunk_size ≤ 0 then
        readIzLoop decompressed region_x region_z x z bucket_dim ix rest (rp + 12)
      else do
        let chunk_data_size : Nat := (((chunk_size - 8) % (2 ^ 64 : Int))).toNat
        let chunk_data ← slice decompressed (rp + 12) chunk_data_size
        let chunk_index := (x * bucket_dim + ix) + (z * bucket_dim + iz) * 32
        let global_x := 32 * region_x + (chunk_index % 32 : Nat)
        let global_z := 32 * region_z + (chunk_index / 32 : Nat)
        let c := Chunk.new_from_block_pos global_x global_z chunk_timestamp chunk_data
        let st ← readIzLoop decompressed region_x region_z x z bucket_dim ix rest
          (rp + 12 + chunk_data_size)
        return (st.1, c :: st.2)

/-- Middle `ix` loop of `Region::from_bytes_linear_v2`: runs the `iz`
loop once per `ix`, threading the bucket-local read pointer. -/
def readIxLoop (decompressed : List Nat) (region_x region_z : Int)
    (x z bucket_dim : Nat) :
    List Nat → Nat → Option (Nat × List Chunk)
  | [], rp => some (rp, [])
  | ix :: rest, rp => do
    let st ← readIzLoop decompressed region_x region_z x z bucket_dim ix
      (List.range bucket_dim) rp
    let st2 ← readIxLoop decompressed region_x region_z x z bucket_dim rest st.1
    return (st2.1, st.2 ++ st2.2)

/-- Outer `(x, z)` bucket loops of `Region::from_bytes_linear_v2`: a
bucket with nonpositive size is skipped entirely; otherwise its payload
is sliced off, decompressed (`unwrap`: failure panics) and parsed by the
inner loops with `bucket_dim = 32 / grid_size` (well defined because the
loop only runs when `grid_size` is positive). -/
def readBuckets (bytes : List Nat) (grid_size : Nat) (region_x region_z : Int)
    (bucket_sizes : List Int) :
    List (Nat × Nat) → Nat → Option (Nat × List Chunk)
  | [], ptr => some (ptr, [])
  | (x, z) :: rest, ptr => do
    let index := x * grid_size + z
    let bucket_data_len := bucket_sizes.getD index 0
    if bucket_data_len ≤ 0 then
      readBuckets bytes grid_size region_x region_z bucket_sizes rest ptr
    else do
      let lenNat : Nat := ((bucket_data_len % (2 ^ 64 : Int))).toNat
      let bucket_data_compressed ← slice bytes ptr lenNat
      let decompressed ← zstdDecodeAll bucket_data_compressed
      let bucket_dim := 32 / grid_size
      let st ← readIxLoop decompressed region_x region_z x z bucket_dim
        (List.range bucket_dim) 0
      let st2 ← readBuckets bytes grid_size region_x region_z bucket_sizes rest
        (ptr + lenNat)
      return (st2.1, st.2 ++ st2.2)

/-- Model of `Region::from_bytes_linear_v2`. `none` models a panic
(out-of-range indexing or slicing, or the decompression `unwrap`);
`some (Except.error e)` a returned `ParseError`. The version byte is
read only after the magic check, as in the source. -/
def from_bytes_linear_v2 (bytes : List Nat) : Option (Except ParseError Region) := do
  let headBytes ← slice bytes 0 8
  if readU64 headBytes ≠ linearMagic then
    return Except.error ParseError.HeaderError
  else do
    let version_got ← byteAt bytes 8
    if version_got ≠ 3 then
      return Except.error ParseError.VersionError
    else do
      let tsBytes ← slice bytes 9 8
      let grid_size ← byteAt bytes 17
      let rxBytes ← slice bytes 18 4
      let rzBytes ← slice bytes 22 4
      let region_x := readI32 rxBytes
      let region_z := readI32 rzBytes
      let ptr0 ← skipFeatures bytes (26 + 128) (bytes.length + 1)
      let st ← readBucketSizes bytes ptr0 (grid_size * grid_size) []
      let pairs := (List.range grid_size).flatMap
        (fun x => (List.range grid_size).map (fun z => (x, z)))
      let st2 ← readBuckets bytes grid_size region_x region_z st.2 pairs st.1
      return Except.ok { chunks := st2.2, timestamp := readI64 tsBytes }

end Region

/-- Model of the `Mode` enum of main.rs. -/
inductive Mode where
  | LinearMca
  | McaLinear
  | McaBlinear
  | BlinearMca
  | BlinearLinear
  | LinearBlinear
  deriving DecidableEq, Repr

/-- Model of `get_input_call` of main.rs applied to the read bytes: the
returned closure runs the resolved decoder; the arms for a legacy `Mca`
input are `todo!()`, a panic, modelled as `none`. -/
def get_input_call (mode : Mode) (data : List Nat) :
    Option (Except ParseError Region) :=
  match mode with
  | Mode.LinearMca => Region.from_bytes_linear_v2 data
  | Mode.LinearBlinear => Region.from_bytes_linear_v2 data
  | Mode.BlinearLinear => Region.from_bytes_blinear data
  | Mode.BlinearMca => Region.from_bytes_blinear data
  | _ => none

/-- Model of `get_output_call` of main.rs applied to a region: every arm
other than `LinearBlinear` and `McaBlinear` is `todo!()`, a panic,
modelled as `none`. -/
def get_output_call (mode : Mode) (region : Region) (timestamp : Int)
    (compression_level : Nat) : Option (List Nat) :=
  match mode with
  | Mode.LinearBlinear => some (region.to_bytes_blinear timestamp compression_level)
  | Mode.McaBlinear => some (region.to_bytes_blinear timestamp compression_level)
  | _ => none

end BufferedLinear

namespace BufferedLinear

deriving instance DecidableEq for Except

/-! List and byte-level helper lemmas. -/

theorem drop_exact {α : Type} (u v : List α) (n : Nat) (h : u.length = n) :
    (u ++ v).drop n = v := by
  subst h; exact List.drop_left u v

theorem take_exact {α : Type} (u v : List α) (n : Nat) (h : u.length = n) :
    (u ++ v).take n = u := by
  subst h; exact List.take_left u v

theorem length_be32 (v : Int) : (be32 v).length = 4 := rfl

theorem length_be64 (v : Int) : (be64 v).length = 8 := rfl

theorem beNat_beBytes4 (m : Nat) (h : m < 2 ^ 32) : beNat (beBytes4 m) = m := by
  simp only [beNat, beBytes4, List.foldl_cons, List.foldl_nil]
  omega

theorem beNat_beBytes8 (m : Nat) (h : m < 2 ^ 64) : beNat (beBytes8 m) = m := by
  simp only [beNat, beBytes8, List.foldl_cons, List.foldl_nil]
  omega

theorem readI32_be32 (v : Int) (h1 : -2 ^ 31 ≤ v) (h2 : v < 2 ^ 31) :
    readI32 (be32 v) = v := by
  have e0 : (0 : Int) ≤ v % 2 ^ 32 := Int.emod_nonneg v (by norm_num)
  have e1 : v % 2 ^ 32 < 2 ^ 32 := Int.emod_lt_of_pos v (by norm_num)
  have ec : ((v % 2 ^ 32).toNat : Int) = v % 2 ^ 32 := Int.toNat_of_nonneg e0
  unfold readI32 be32
  rw [beNat_beBytes4 _ (by omega)]
  unfold toSigned32
  split <;> omega

theorem readI64_be64 (v : Int) (h1 : -2 ^ 63 ≤ v) (h2 : v < 2 ^ 63) :
    readI64 (be64 v) = v := by
  have e0 : (0 : Int) ≤ v % 2 ^ 64 := Int.emod_nonneg v (by norm_num)
  have e1 : v % 2 ^ 64 < 2 ^ 64 := Int.emod_lt_of_pos v (by norm_num)
  have ec : ((v % 2 ^ 64).toNat : Int) = v % 2 ^ 64 := Int.toNat_of_nonneg e0
  unfold readI64 be64
  rw [beNat_beBytes8 _ (by omega)]
  unfold toSigned64
  split <;> omega

theorem slice_eq_some (d : List Nat) (s n : Nat) (h : s + n ≤ d.length) :
    slice d s n = some ((d.drop s).take n) := by
  unfold slice
  rw [if_pos h]

theorem slice_eq_none (d : List Nat) (s n : Nat) (h : d.length < s + n) :
    slice d s n = none := by
  unfold slice
  rw [if_neg (by omega)]

/-- Slicing entirely inside a prefix ignores the suffix. -/
theorem slice_append_left (u v : List Nat) (s n : Nat) (h : s + n ≤ u.length) :
    slice (u ++ v) s n = some ((u.drop s).take n) := by
  rw [slice_eq_some _ _ _ (by rw [List.length_append]; omega)]
  rw [List.drop_append_of_le_length (by omega),
    List.take_append_of_le_length (by rw [List.length_drop]; omega)]

/-- Slicing a whole block that begins right after a prefix. -/
theorem slice_at_append (pre rest : List Nat) (n : Nat) (h : n ≤ rest.length) :
    slice (pre ++ rest) pre.length n = some (rest.take n) := by
  rw [slice_eq_some _ _ _ (by rw [List.length_append]; omega), List.drop_left]

/-! Chunk-level lemmas: the packed position and the accessors. -/

theorem Chunk.position_new_from_block_pos (x z t : Int) (d : List Nat) :
    (Chunk.new_from_block_pos x z t d).position =
      (x % 2 ^ 32).toNat * 2 ^ 32 + (z % 2 ^ 32).toNat := rfl

theorem Chunk.timestamp_new_from_block_pos (x z t : Int) (d : List Nat) :
    (Chunk.new_from_block_pos x z t d).timestamp = t := rfl

theorem Chunk.data_new_from_block_pos (x z t : Int) (d : List Nat) :
    (Chunk.new_from_block_pos x z t d).data = d := rfl

/-- The accessor `Chunk::x` recovers the coordinate stored in the LOW
half of the position, which `new_from_block_pos` fills with `z`. -/
theorem Chunk.x_new_from_block_pos (x z t : Int) (d : List Nat)
    (h1 : -2 ^ 31 ≤ z) (h2 : z < 2 ^ 31) :
    (Chunk.new_from_block_pos x z t d).x = z := by
  simp only [Chunk.x, Chunk.new_from_block_pos, toSigned32]
  split <;> omega

/-- The accessor `Chunk::z` recovers the coordinate stored in the HIGH
half of the position, which `new_from_block_pos` fills with `x`. -/
theorem Chunk.z_new_from_block_pos (x z t : Int) (d : List Nat)
    (h1 : -2 ^ 31 ≤ x) (h2 : x < 2 ^ 31) :
    (Chunk.new_from_block_pos x z t d).z = x := by
  simp only [Chunk.z, Chunk.new_from_block_pos, toSigned32]
  split <;> omega

/-- The encode-side slot formula on the constructor coordinates: the
accessor swap cancels because the formula is symmetric in x and z. -/
theorem Chunk.sector_index_new_from_block_pos (x z t : Int) (d : List Nat)
    (hx1 : -2 ^ 31 ≤ x) (hx2 : x < 2 ^ 31) (hz1 : -2 ^ 31 ≤ z) (hz2 : z < 2 ^ 31) :
    (Chunk.new_from_block_pos x z t d).position_to_sector_index =
      (x % 32 + z % 32) * 32 := by
  unfold Chunk.position_to_sector_index
  rw [Chunk.x_new_from_block_pos x z t d hz1 hz2,
    Chunk.z_new_from_block_pos x z t d hx1 hx2]
  omega

theorem Chunk.position_from_sector (i : Nat) (t : Int) (d : List Nat) :
    (Chunk.from_sector i t d).position = i % 32 * 2 ^ 32 + i / 32 % 32 := by
  simp only [Chunk.from_sector, Chunk.new_from_block_pos]
  omega

/-- The sector index is never negative. -/
theorem Chunk.sector_index_nonneg (c : Chunk) :
    0 ≤ c.position_to_sector_index := by
  unfold Chunk.position_to_sector_index
  exact Int.ofNat_nonneg _

end BufferedLinear

namespace BufferedLinear

/-! Claims C2, C3 and C4: chunk addressing. -/

/-- Claim C2, counterexample: the distinct in-range coordinate pairs
(1, 0) and (0, 1) map to the same sector index 32, and (31, 31) maps to
1984, outside [0, 1023]; so `position_to_sector_index` is not a
bijection from the 32 by 32 domain onto [0, 1023]. -/
theorem c2_counterexample :
    (Chunk.new_from_block_pos 1 0 0 []).position_to_sector_index =
        (Chunk.new_from_block_pos 0 1 0 []).position_to_sector_index ∧
      ((1 : Int), (0 : Int)) ≠ ((0 : Int), (1 : Int)) ∧
      (Chunk.new_from_block_pos 31 31 0 []).position_to_sector_index = 1984 := by
  decide

/-- Claim C2, amended: `position_to_sector_index` is NOT a bijection of
the 32 by 32 domain onto [0, 1023] (distinct pairs collide and the range
is overshot); the decode-side sector map used by `from_sector`, in
contrast, is a bijection from [0, 1023] onto the in-range chunks. -/
theorem c2_amended :
    ((Chunk.new_from_block_pos 1 0 0 []).position_to_sector_index =
        (Chunk.new_from_block_pos 0 1 0 []).position_to_sector_index ∧
      ¬ (Chunk.new_from_block_pos 31 31 0 []).position_to_sector_index ≤ 1023) ∧
    (∀ i j : Nat, i < 1024 → j < 1024 →
      Chunk.from_sector i 0 [] = Chunk.from_sector j 0 [] → i = j) ∧
    (∀ x z : Nat, x ≤ 31 → z ≤ 31 →
      ∃ i, i < 1024 ∧
        Chunk.from_sector i 0 [] = Chunk.new_from_block_pos (x : Int) (z : Int) 0 []) := by
  refine ⟨by decide, ?_, ?_⟩
  · intro i j hi hj h
    have hp := congrArg Chunk.position h
    rw [Chunk.position_from_sector, Chunk.position_from_sector] at hp
    omega
  · intro x z hx hz
    refine ⟨x + 32 * z, by omega, ?_⟩
    simp only [Chunk.from_sector, Chunk.new_from_block_pos, Chunk.mk.injEq,
      and_true]
    omega

/-- Claim C2, witness: the amended bijection statement instantiated at
concrete sector indices and coordinates. -/
theorem c2_amended_witness :
    (Chunk.from_sector 3 0 [] = Chunk.from_sector 3 0 [] → (3 : Nat) = 3) ∧
    (∃ i, i < 1024 ∧
      Chunk.from_sector i 0 [] = Chunk.new_from_block_pos 5 7 0 []) :=
  ⟨c2_amended.2.1 3 3 (by decide) (by decide),
    c2_amended.2.2 5 7 (by decide) (by decide)⟩

/-- Claim C3: on a chunk built from in-range i32 coordinates (x, z) the
slot function computes exactly ((x & 31) + (z & 31)) << 5, rendered as
(x mod 32 + z mod 32) * 32; moreover the formula overshoots 1023 at
(31, 31), collides the distinct pairs (1, 0) and (0, 1) on slot 32,
differs from the canonical formula (x & 31) or ((z & 31) << 5) at
(1, 0), and decoding its slot via `from_sector` does not invert it. -/
theorem c3_formula (x z t : Int) (d : List Nat)
    (hx1 : -2 ^ 31 ≤ x) (hx2 : x < 2 ^ 31) (hz1 : -2 ^ 31 ≤ z) (hz2 : z < 2 ^ 31) :
    (Chunk.new_from_block_pos x z t d).position_to_sector_index =
        (x % 32 + z % 32) * 32 ∧
      (Chunk.new_from_block_pos 31 31 0 []).position_to_sector_index > 1023 ∧
      ((Chunk.new_from_block_pos 1 0 0 []).position_to_sector_index =
          (Chunk.new_from_block_pos 0 1 0 []).position_to_sector_index ∧
        ((1 : Int), (0 : Int)) ≠ ((0 : Int), (1 : Int))) ∧
      (Chunk.new_from_block_pos 1 0 0 []).position_to_sector_index ≠
        (1 % 32 + (0 % 32) * 32 : Int) ∧
      Chunk.from_sector 32 0 [] ≠ Chunk.new_from_block_pos 1 0 0 [] := by
  refine ⟨Chunk.sector_index_new_from_block_pos x z t d hx1 hx2 hz1 hz2,
    by decide, by decide, by decide, by decide⟩

/-- Claim C3, witness: the formula evaluated at the concrete coordinates
(3, -5). -/
theorem c3_formula_witness :
    (Chunk.new_from_block_pos 3 (-5) 0 [9]).position_to_sector_index =
        ((3 : Int) % 32 + (-5 : Int) % 32) * 32 ∧
      (Chunk.new_from_block_pos 31 31 0 []).position_to_sector_index > 1023 ∧
      ((Chunk.new_from_block_pos 1 0 0 []).position_to_sector_index =
          (Chunk.new_from_block_pos 0 1 0 []).position_to_sector_index ∧
        ((1 : Int), (0 : Int)) ≠ ((0 : Int), (1 : Int))) ∧
      (Chunk.new_from_block_pos 1 0 0 []).position_to_sector_index ≠
        (1 % 32 + (0 % 32) * 32 : Int) ∧
      Chunk.from_sector 32 0 [] ≠ Chunk.new_from_block_pos 1 0 0 [] :=
  c3_formula 3 (-5) 0 [9] (by decide) (by decide) (by decide) (by decide)

/-- Claim C4, counterexample: the chunk built from (x, z) = (1, 0) has
`x()` equal to 0, not to the stored x coordinate 1 — the accessors read
the opposite halves of the packed position. -/
theorem c4_counterexample :
    (Chunk.new_from_block_pos 1 0 0 []).x = 0 ∧ (0 : Int) ≠ 1 := by
  decide

/-- Claim C4, amended: `new_from_block_pos` does store x in the high 32
bits and z in the low 32 bits of the packed position, but the accessors
are swapped: `chunk.x()` returns z and `chunk.z()` returns x (each
recovered exactly for i32-range inputs). -/
theorem c4_amended (x z t : Int) (d : List Nat)
    (hx1 : -2 ^ 31 ≤ x) (hx2 : x < 2 ^ 31) (hz1 : -2 ^ 31 ≤ z) (hz2 : z < 2 ^ 31) :
    (Chunk.new_from_block_pos x z t d).position / 2 ^ 32 = (x % 2 ^ 32).toNat ∧
      (Chunk.new_from_block_pos x z t d).position % 2 ^ 32 = (z % 2 ^ 32).toNat ∧
      (Chunk.new_from_block_pos x z t d).x = z ∧
      (Chunk.new_from_block_pos x z t d).z = x := by
  refine ⟨?_, ?_, Chunk.x_new_from_block_pos x z t d hz1 hz2,
    Chunk.z_new_from_block_pos x z t d hx1 hx2⟩
  · rw [Chunk.position_new_from_block_pos]
    omega
  · rw [Chunk.position_new_from_block_pos]
    omega

/-- Claim C4, witness: the packing and the swapped accessors at the
concrete coordinates (5, -7). -/
theorem c4_amended_witness :
    (Chunk.new_from_block_pos 5 (-7) 1 [2]).position / 2 ^ 32 =
        ((5 : Int) % 2 ^ 32).toNat ∧
      (Chunk.new_from_block_pos 5 (-7) 1 [2]).position % 2 ^ 32 =
        ((-7 : Int) % 2 ^ 32).toNat ∧
      (Chunk.new_from_block_pos 5 (-7) 1 [2]).x = -7 ∧
      (Chunk.new_from_block_pos 5 (-7) 1 [2]).z = 5 :=
  c4_amended 5 (-7) 1 [2] (by decide) (by decide) (by decide) (by decide)

/-! Claim C6: dispatch of unimplemented conversion modes. -/

/-- Claim C6, counterexample: resolving an Mca-input mode and running it
panics (the `todo!()` arm, modelled `none`) instead of producing any
typed error value, and likewise for an Mca-output mode; `ParseError`
offers no UnsupportedConversion variant at all. -/
theorem c6_counterexample :
    get_input_call Mode.McaLinear [] = none ∧
      get_output_call Mode.BlinearMca { chunks := [], timestamp := 0 } 0 6 = none := by
  decide

/-- Claim C6, amended: every conversion mode with the legacy Mca format
on an unimplemented side panics at dispatch (`todo!()`, modelled `none`)
rather than returning a typed error, and the error enum has only the
three variants ReadError, HeaderError and VersionError — there is no
UnsupportedConversion value the program could return. -/
theorem c6_amended :
    (∀ data : List Nat, get_input_call Mode.McaLinear data = none ∧
        get_input_call Mode.McaBlinear data = none) ∧
      (∀ (r : Region) (t : Int) (l : Nat),
        get_output_call Mode.LinearMca r t l = none ∧
          get_output_call Mode.McaLinear r t l = none ∧
          get_output_call Mode.BlinearMca r t l = none) ∧
      (∀ e : ParseError, e = ParseError.ReadError ∨ e = ParseError.HeaderError ∨
        e = ParseError.VersionError) := by
  refine ⟨fun _ => ⟨rfl, rfl⟩, fun _ _ _ => ⟨rfl, rfl, rfl⟩, fun e => ?_⟩
  cases e
  · exact Or.inl rfl
  · exact Or.inr (Or.inl rfl)
  · exact Or.inr (Or.inr rfl)

/-- Claim C6, witness: the amended statement instantiated at concrete
inputs. -/
theorem c6_amended_witness :
    (get_input_call Mode.McaLinear [7] = none ∧
        get_input_call Mode.McaBlinear [7] = none) ∧
      (get_output_call Mode.LinearMca { chunks := [], timestamp := 0 } 0 6 = none ∧
        get_output_call Mode.McaLinear { chunks := [], timestamp := 0 } 0 6 = none ∧
        get_output_call Mode.BlinearMca { chunks := [], timestamp := 0 } 0 6 = none) ∧
      (ParseError.ReadError = ParseError.ReadError ∨
        ParseError.ReadError = ParseError.HeaderError ∨
        ParseError.ReadError = ParseError.VersionError) :=
  ⟨c6_amended.1 [7], c6_amended.2.1 { chunks := [], timestamp := 0 } 0 6,
    c6_amended.2.2 ParseError.ReadError⟩

end BufferedLinear

namespace BufferedLinear

/-! Claim C8: blinear v2 header validation. -/

/-- Claim C8: for every input of at least nine bytes (so both header
reads succeed, as the source performs them before either check), a
first-eight-byte big-endian value different from the blinear magic
yields HeaderError, and a correct magic with version byte (offset 8)
different from 2 yields VersionError. -/
theorem c8_header_validation (bytes : List Nat) (hlen : 9 ≤ bytes.length) :
    (readI64 (bytes.take 8) ≠ Region.blinearMagic →
      Region.from_bytes_blinear bytes = some (Except.error ParseError.HeaderError)) ∧
    (readI64 (bytes.take 8) = Region.blinearMagic → bytes.get? 8 ≠ some 2 →
      Region.from_bytes_blinear bytes = some (Except.error ParseError.VersionError)) := by
  have h1 : slice bytes 0 8 = some (bytes.take 8) := by
    rw [slice_eq_some _ _ _ (by omega)]
    simp
  obtain ⟨v, rest, hvr⟩ : ∃ v rest, bytes.drop 8 = v :: rest := by
    rcases hd : bytes.drop 8 with _ | ⟨v, rest⟩
    · have := congrArg List.length hd
      simp at this
      omega
    · exact ⟨v, rest, rfl⟩
  have h2 : slice bytes 8 1 = some [v] := by
    rw [slice_eq_some _ _ _ (by omega), hvr]
    simp
  have hv8 : bytes.get? 8 = some v := by
    rw [List.get?_eq_getElem?]
    have := List.getElem?_drop bytes 8 0
    rw [hvr] at this
    simpa using this.symm
  constructor
  · intro hmag
    simp [Region.from_bytes_blinear, h1, h2, hmag]
  · intro hmag hne
    have hv2 : v ≠ 2 := by
      intro h
      exact hne (by rw [hv8, h])
    simp [Region.from_bytes_blinear, h1, h2, hmag, hv2]

/-- Claim C8, witness: a nine-byte buffer with the correct magic but
version byte 7 decodes to VersionError (and the header branch holds
vacuously). -/
theorem c8_header_validation_witness :
    (readI64 ((be64 Region.blinearMagic ++ [7]).take 8) ≠ Region.blinearMagic →
      Region.from_bytes_blinear (be64 Region.blinearMagic ++ [7]) =
        some (Except.error ParseError.HeaderError)) ∧
    (readI64 ((be64 Region.blinearMagic ++ [7]).take 8) = Region.blinearMagic →
      (be64 Region.blinearMagic ++ [7]).get? 8 ≠ some 2 →
      Region.from_bytes_blinear (be64 Region.blinearMagic ++ [7]) =
        some (Except.error ParseError.VersionError)) :=
  c8_header_validation (be64 Region.blinearMagic ++ [7]) (by decide)

end BufferedLinear

namespace BufferedLinear

/-! Blinear body machinery: the sector loop of `from_bytes_blinear` on a
body that is a sequence of well-formed blocks. -/

theorem optBind_some {α β : Type} (a : α) (f : α → Option β) :
    (some a >>= f) = f a := rfl

theorem optBind_none {α β : Type} (f : α → Option β) :
    ((none : Option α) >>= f) = none := rfl

/-- A well-formed empty-slot marker block: four bytes reading as i32
zero (what the encoder writes for an empty slot). -/
def MarkerBlock (b : List Nat) : Prop := b.length = 4 ∧ readI32 b = 0

/-- A well-formed record block: a four-byte big-endian prefix holding
the byte length of the rest (the record section), the section at least
16 bytes long and short enough for a positive i32 length. -/
def RecordBlock (b : List Nat) : Prop :=
  b.take 4 = be32 ((b.length : Int) - 4) ∧ 20 ≤ b.length ∧
    (b.length : Int) - 4 < 2 ^ 31

def WFBlock (b : List Nat) : Prop := MarkerBlock b ∨ RecordBlock b

/-- Reference result of the blinear sector loop on a list of well-formed
blocks laid end to end: a marker is skipped, a record block produces the
chunk of its sector index, timestamp field and payload, and sector
indices outrunning the blocks panic (the loop slices out of bounds). -/
def blocksResult : List (List Nat) → List Nat → Option (List Chunk)
  | _, [] => some []
  | [], _ :: _ => none
  | b :: bs, i :: rest =>
    if b.length = 4 then blocksResult bs rest
    else (blocksResult bs rest).map fun cs =>
      Chunk.from_sector i (readI64 (((b.drop 4).drop 4).take 8))
        ((b.drop 4).drop 16) :: cs

/-- The sector loop of `from_bytes_blinear` run on a buffer whose tail
after `pre` is a sequence of well-formed blocks computes exactly
`blocksResult`. -/
theorem processSectors_blocks (idxs : List Nat) :
    ∀ (blocks : List (List Nat)) (pre : List Nat),
      (∀ b ∈ blocks, WFBlock b) →
      Region.processSectors (pre ++ blocks.flatten) pre.length idxs =
        blocksResult blocks idxs := by
  induction idxs with
  | nil =>
    intro blocks pre _
    cases blocks <;> rfl
  | cons i rest ih =>
    intro blocks pre hwf
    cases blocks with
    | nil =>
      have hs : slice (pre ++ ([] : List (List Nat)).flatten) pre.length 4 = none := by
        apply slice_eq_none
        simp
      simp only [Region.processSectors, hs, optBind_none, blocksResult]
    | cons b bs =>
      have hwfb : WFBlock b := hwf b (by simp)
      have hwfbs : ∀ y ∈ bs, WFBlock y := fun y hy => hwf y (by simp [hy])
      rcases hwfb with ⟨hlen4, hread⟩ | ⟨htake, hlen, hfit⟩
      · -- a marker block: four bytes read as zero, the slot is skipped
        have hs : slice (pre ++ (b :: bs).flatten) pre.length 4 = some b := by
          rw [List.flatten_cons,
            slice_at_append _ _ _ (by rw [List.length_append]; omega),
            List.take_append_of_le_length (by omega)]
          rw [← hlen4, List.take_length]
        have hsplit2 : pre ++ (b :: bs).flatten = (pre ++ b) ++ bs.flatten := by
          rw [List.flatten_cons, ← List.append_assoc]
        calc Region.processSectors (pre ++ (b :: bs).flatten) pre.length (i :: rest)
            = Region.processSectors (pre ++ (b :: bs).flatten) (pre.length + 4) rest := by
              simp only [Region.processSectors, hs, optBind_some, hread]
              norm_num
          _ = blocksResult bs rest := by
              rw [hsplit2,
                show pre.length + 4 = (pre ++ b).length by rw [List.length_append, hlen4]]
              exact ih bs (pre ++ b) hwfbs
          _ = blocksResult (b :: bs) (i :: rest) := by
              simp only [blocksResult, if_pos hlen4]
      · -- a record block: length prefix plus a section of at least 16 bytes
        have hlt4 : (b.take 4).length = 4 := by
          rw [List.length_take]
          omega
        have hb4 : b.take 4 ++ b.drop 4 = b := List.take_append_drop 4 b
        have hsplit : pre ++ (b :: bs).flatten =
            (pre ++ b.take 4) ++ (b.drop 4 ++ bs.flatten) := by
          rw [List.flatten_cons, List.append_assoc, ← List.append_assoc (b.take 4), hb4]
        have hsplit2 : pre ++ (b :: bs).flatten = (pre ++ b) ++ bs.flatten := by
          rw [List.flatten_cons, ← List.append_assoc]
        have hs : slice (pre ++ (b :: bs).flatten) pre.length 4 =
            some (be32 ((b.length : Int) - 4)) := by
          rw [List.flatten_cons,
            slice_at_append _ _ _ (by rw [List.length_append]; omega),
            List.take_append_of_le_length (by omega), htake]
        have hread2 : readI32 (be32 ((b.length : Int) - 4)) = (b.length : Int) - 4 :=
          readI32_be32 _ (by omega) hfit
        have hsl : ((readI32 (be32 ((b.length : Int) - 4))) % (2 ^ 64 : Int)).toNat =
            b.length - 4 := by
          rw [hread2]
          omega
        have hsl0 : ¬ (b.length - 4 = 0) := by omega
        have hsec : slice (pre ++ (b :: bs).flatten) (pre.length + 4) (b.length - 4) =
            some (b.drop 4) := by
          rw [hsplit,
            show pre.length + 4 = (pre ++ b.take 4).length by
              rw [List.length_append, hlt4],
            slice_at_append _ _ _
              (by rw [List.length_append, List.length_drop]; omega),
            List.take_append_of_le_length (by simp [List.length_drop]),
            show b.length - 4 = (b.drop 4).length by rw [List.length_drop],
            List.take_length]
        have hs0 : slice (b.drop 4) 0 4 = some (((b.drop 4).drop 0).take 4) :=
          slice_eq_some _ _ _ (by simp [List.length_drop]; omega)
        have hs4 : slice (b.drop 4) 4 8 = some (((b.drop 4).drop 4).take 8) :=
          slice_eq_some _ _ _ (by simp [List.length_drop]; omega)
        have hs12 : slice (b.drop 4) 12 4 = some (((b.drop 4).drop 12).take 4) :=
          slice_eq_some _ _ _ (by simp [List.length_drop]; omega)
        calc Region.processSectors (pre ++ (b :: bs).flatten) pre.length (i :: rest)
            = (Region.processSectors (pre ++ (b :: bs).flatten)
                  (pre.length + 4 + (b.length - 4)) rest) >>=
                (fun chunks => some (Chunk.from_sector i
                  (readI64 (((b.drop 4).drop 4).take 8))
                  ((b.drop 4).drop 16) :: chunks)) := by
              simp only [Region.processSectors, hs, optBind_some, hsl,
                if_neg hsl0, hsec, hs0, hs4, hs12]
              rfl
          _ = (blocksResult bs rest) >>=
                (fun chunks => some (Chunk.from_sector i
                  (readI64 (((b.drop 4).drop 4).take 8))
                  ((b.drop 4).drop 16) :: chunks)) := by
              rw [hsplit2,
                show pre.length + 4 + (b.length - 4) = (pre ++ b).length by
                  rw [List.length_append]; omega,
                ih bs (pre ++ b) hwfbs]
          _ = blocksResult (b :: bs) (i :: rest) := by
              simp only [blocksResult, if_neg (show ¬ b.length = 4 by omega)]
              cases blocksResult bs rest <;> rfl

end BufferedLinear

namespace BufferedLinear

/-! Encoder shape: the body is one block per slot in slot order. -/

theorem foldl_append_eq_flatten {α : Type} (f : α → List Nat) :
    ∀ (l : List α) (acc : List Nat),
      l.foldl (fun a i => a ++ f i) acc = acc ++ (l.map f).flatten := by
  intro l
  induction l with
  | nil => intro acc; simp
  | cons y ys ih => intro acc; simp [ih]

/-- The encoder output is the 18-byte header followed by the body, one
block per slot index in ascending order (the compressor is the identity
model, so compression always succeeds). -/
theorem to_bytes_blinear_eq (r : Region) (t : Int) (lvl : Nat) :
    Region.to_bytes_blinear r t lvl =
      (be64 Region.blinearMagic ++ [2] ++ be64 t ++ [lvl % 256]) ++
        ((List.range 1024).map (Region.slotBlock r)).flatten := by
  simp only [Region.to_bytes_blinear, zstdEncodeAll, foldl_append_eq_flatten,
    List.nil_append, List.append_assoc]

/-- The record section the encoder builds for a chunk:
payload length, timestamp, checksum, payload. -/
def recordSection (c : Chunk) : List Nat :=
  be32 ((c.to_raw_bytes).length : Int) ++ be64 c.timestamp
    ++ be32 (toSigned32 (xxHash32 0x0721 c.to_raw_bytes)) ++ c.to_raw_bytes

theorem length_recordSection (c : Chunk) :
    (recordSection c).length = 16 + c.data.length := by
  simp only [recordSection, Chunk.to_raw_bytes, List.length_append,
    length_be32, length_be64]

theorem slotBlock_eq_none (r : Region) (i : Nat)
    (h : r.chunks.find? (fun c => c.position_to_sector_index == (i : Int)) = none) :
    Region.slotBlock r i = be32 0 := by
  unfold Region.slotBlock
  rw [h]

theorem slotBlock_eq_some (r : Region) (i : Nat) (c : Chunk)
    (h : r.chunks.find? (fun c => c.position_to_sector_index == (i : Int)) = some c) :
    Region.slotBlock r i =
      be32 (((recordSection c).length : Nat) : Int) ++ recordSection c := by
  unfold Region.slotBlock
  rw [h]
  rfl

/-- Every block the encoder emits is well formed, provided every chunk
payload is short enough for the record length to fit a positive i32. -/
theorem wf_slotBlock (r : Region)
    (hd : ∀ c ∈ r.chunks, c.data.length < 2 ^ 31 - 16) (i : Nat) :
    WFBlock (Region.slotBlock r i) := by
  cases hfind : r.chunks.find? (fun c => c.position_to_sector_index == (i : Int)) with
  | none =>
    left
    rw [slotBlock_eq_none r i hfind]
    exact ⟨length_be32 0, readI32_be32 0 (by norm_num) (by norm_num)⟩
  | some c =>
    right
    have hc : c ∈ r.chunks := List.mem_of_find?_eq_some hfind
    have hdc := hd c hc
    rw [slotBlock_eq_some r i c hfind]
    have hL : (be32 (((recordSection c).length : Nat) : Int) ++ recordSection c).length =
        4 + (recordSection c).length := by
      rw [List.length_append, length_be32]
    have hrs := length_recordSection c
    refine ⟨?_, by omega, by rw [hL]; push_cast; omega⟩
    rw [take_exact _ _ _ (length_be32 _), hL]
    congr 1
    push_cast
    omega

end BufferedLinear

namespace BufferedLinear

/-- Decoding a buffer made of an 18-byte header and a sequence of
well-formed blocks: the header checks run first, then the sector loop
consumes the blocks. -/
theorem from_bytes_blinear_append (hdr : List Nat) (blocks : List (List Nat))
    (hh : hdr.length = 18) (hwf : ∀ b ∈ blocks, WFBlock b) :
    Region.from_bytes_blinear (hdr ++ blocks.flatten) =
      if readI64 (hdr.take 8) ≠ Region.blinearMagic then
        some (Except.error ParseError.HeaderError)
      else if ((hdr.drop 8).take 1).headI ≠ 2 then
        some (Except.error ParseError.VersionError)
      else
        (blocksResult blocks (List.range 1024)) >>= fun cs =>
          some (Except.ok { chunks := cs, timestamp := readI64 ((hdr.drop 9).take 8) }) := by
  have h0 : slice (hdr ++ blocks.flatten) 0 8 = some (hdr.take 8) := by
    rw [slice_append_left _ _ _ _ (by omega), List.drop_zero]
  have h8 : slice (hdr ++ blocks.flatten) 8 1 = some ((hdr.drop 8).take 1) :=
    slice_append_left _ _ _ _ (by omega)
  have h9 : slice (hdr ++ blocks.flatten) 9 8 = some ((hdr.drop 9).take 8) :=
    slice_append_left _ _ _ _ (by omega)
  have h17 : slice (hdr ++ blocks.flatten) 17 1 = some ((hdr.drop 17).take 1) :=
    slice_append_left _ _ _ _ (by omega)
  have hbody : slice (hdr ++ blocks.flatten) 18
      ((hdr ++ blocks.flatten).length - 18) = some blocks.flatten := by
    rw [List.length_append, hh,
      show 18 + blocks.flatten.length - 18 = blocks.flatten.length by omega,
      slice_eq_some _ _ _ (by rw [List.length_append, hh]),
      drop_exact _ _ _ hh, List.take_length]
  have hps : Region.processSectors blocks.flatten 0 (List.range 1024) =
      blocksResult blocks (List.range 1024) := by
    have h := processSectors_blocks (List.range 1024) blocks [] hwf
    simpa using h
  by_cases hmag : readI64 (hdr.take 8) ≠ Region.blinearMagic
  · rw [if_pos hmag]
    simp only [Region.from_bytes_blinear, h0, h8, optBind_some, if_pos hmag]
    rfl
  · rw [if_neg hmag]
    by_cases hver : ((hdr.drop 8).take 1).headI ≠ 2
    · rw [if_pos hver]
      simp only [Region.from_bytes_blinear, h0, h8, optBind_some, if_neg hmag,
        if_pos hver]
      rfl
    · rw [if_neg hver]
      simp only [Region.from_bytes_blinear, h0, h8, optBind_some, if_neg hmag,
        if_neg hver, h9, h17, hbody, zstdDecodeAll, hps]
      cases blocksResult blocks (List.range 1024) <;> rfl

/-- On the blocks the encoder emits, the sector loop recovers, slot by
slot, the chunk the encoder selected for that slot, rebuilt by
`from_sector` from the slot index, the stored timestamp and payload. -/
theorem blocksResult_slotBlocks (r : Region)
    (hts : ∀ c ∈ r.chunks, -2 ^ 63 ≤ c.timestamp ∧ c.timestamp < 2 ^ 63) :
    ∀ idxs : List Nat,
      blocksResult (idxs.map (Region.slotBlock r)) idxs =
        some (idxs.filterMap (fun (i : Nat) =>
          (r.chunks.find? (fun c => c.position_to_sector_index == (i : Int))).map
            (fun c => Chunk.from_sector i c.timestamp c.data))) := by
  intro idxs
  induction idxs with
  | nil => rfl
  | cons i rest ih =>
    rw [List.map_cons, List.filterMap_cons]
    cases hfind : r.chunks.find? (fun c => c.position_to_sector_index == (i : Int)) with
    | none =>
      rw [slotBlock_eq_none r i hfind]
      simp only [blocksResult, length_be32, if_pos rfl]
      exact ih
    | some c =>
      have hc : c ∈ r.chunks := List.mem_of_find?_eq_some hfind
      rw [slotBlock_eq_some r i c hfind]
      have hrs := length_recordSection c
      have hlb : (be32 (((recordSection c).length : Nat) : Int) ++
          recordSection c).length = 4 + (recordSection c).length := by
        rw [List.length_append, length_be32]
      have hne4 : ¬ (be32 (((recordSection c).length : Nat) : Int) ++
          recordSection c).length = 4 := by
        rw [hlb]
        omega
      have hdrop4 : (be32 (((recordSection c).length : Nat) : Int) ++
          recordSection c).drop 4 = recordSection c :=
        drop_exact _ _ _ (length_be32 _)
      have hts8 : ((recordSection c).drop 4).take 8 = be64 c.timestamp := by
        have hgrp : recordSection c =
            be32 ((c.to_raw_bytes).length : Int) ++
              (be64 c.timestamp ++
                (be32 (toSigned32 (xxHash32 0x0721 c.to_raw_bytes)) ++
                  c.to_raw_bytes)) := by
          unfold recordSection
          simp [List.append_assoc]
        rw [hgrp, drop_exact _ _ _ (length_be32 _),
          take_exact _ _ _ (length_be64 _)]
      have hd16 : (recordSection c).drop 16 = c.data := by
        have hgrp : recordSection c =
            (be32 ((c.to_raw_bytes).length : Int) ++ be64 c.timestamp
              ++ be32 (toSigned32 (xxHash32 0x0721 c.to_raw_bytes))) ++
              c.to_raw_bytes := by
          unfold recordSection
          simp [List.append_assoc]
        rw [hgrp, drop_exact _ _ _ (by simp [length_be32, length_be64])]
        rfl
      have hread : readI64 (be64 c.timestamp) = c.timestamp :=
        readI64_be64 _ (hts c hc).1 (hts c hc).2
      simp only [blocksResult, if_neg hne4, hdrop4, hts8, hd16, hread, ih]
      rfl

/-- The chunk list the decoder recovers from the encoder output: for
each slot in ascending order, the chunk the encoder selected for that
slot, rebuilt by `from_sector` from the slot index and the stored
timestamp and payload. -/
def decodedChunks (r : Region) : List Chunk :=
  (List.range 1024).filterMap (fun (i : Nat) =>
    (r.chunks.find? (fun c => c.position_to_sector_index == (i : Int))).map
      (fun c => Chunk.from_sector i c.timestamp c.data))

/-- Decode of encode, characterized: for a container whose chunk
payloads are short enough and whose timestamps fit an i64, decoding the
encoded bytes succeeds with the given master timestamp and the chunks
of `decodedChunks`. -/
theorem from_bytes_blinear_encode (r : Region) (t : Int) (lvl : Nat)
    (hd : ∀ c ∈ r.chunks, c.data.length < 2 ^ 31 - 16)
    (hts : ∀ c ∈ r.chunks, -2 ^ 63 ≤ c.timestamp ∧ c.timestamp < 2 ^ 63)
    (ht1 : -2 ^ 63 ≤ t) (ht2 : t < 2 ^ 63) :
    Region.from_bytes_blinear (Region.to_bytes_blinear r t lvl) =
      some (Except.ok { chunks := decodedChunks r, timestamp := t }) := by
  rw [to_bytes_blinear_eq]
  have hh : (be64 Region.blinearMagic ++ [2] ++ be64 t ++ [lvl % 256]).length = 18 := by
    simp [length_be64]
  have hwf : ∀ b ∈ (List.range 1024).map (Region.slotBlock r), WFBlock b := by
    intro b hb
    obtain ⟨i, _, rfl⟩ := List.mem_map.mp hb
    exact wf_slotBlock r hd i
  rw [from_bytes_blinear_append _ _ hh hwf]
  have hnorm : (be64 Region.blinearMagic ++ [2] ++ be64 t ++ [lvl % 256]) =
      be64 Region.blinearMagic ++ ([2] ++ (be64 t ++ [lvl % 256])) := by
    simp [List.append_assoc]
  have htk8 : (be64 Region.blinearMagic ++ [2] ++ be64 t ++ [lvl % 256]).take 8 =
      be64 Region.blinearMagic := by
    rw [hnorm, take_exact _ _ _ (length_be64 _)]
  have hmagic : readI64 (be64 Region.blinearMagic) = Region.blinearMagic :=
    readI64_be64 _ (by norm_num [Region.blinearMagic])
      (by norm_num [Region.blinearMagic])
  have hdr8 : (be64 Region.blinearMagic ++ [2] ++ be64 t ++ [lvl % 256]).drop 8 =
      [2] ++ (be64 t ++ [lvl % 256]) := by
    rw [hnorm, drop_exact _ _ _ (length_be64 _)]
  have hdr9 : (be64 Region.blinearMagic ++ [2] ++ be64 t ++ [lvl % 256]).drop 9 =
      be64 t ++ [lvl % 256] := by
    have h1 : ((be64 Region.blinearMagic ++ [2] ++ be64 t ++ [lvl % 256]).drop 8).drop 1 =
        be64 t ++ [lvl % 256] := by
      rw [hdr8]
      rfl
    rw [List.drop_drop] at h1
    norm_num at h1
    exact h1
  rw [htk8, hmagic, if_neg (fun h => h rfl)]
  rw [hdr8, if_neg (fun h => h rfl)]
  rw [blocksResult_slotBlocks r hts (List.range 1024)]
  rw [hdr9, take_exact _ _ _ (length_be64 _), readI64_be64 t ht1 ht2]
  rfl


end BufferedLinear

namespace BufferedLinear

/-! Claim C10: out-of-range chunks are silently dropped by the encoder. -/

/-- Claim C10: a chunk whose sector index lies outside [0, 1023] matches
no slot of the 0..1024 encode scan, so appending it to a container does
not change the encoded bytes at all; and the encoded body always
consists of exactly 1024 slot entries, each either the four-byte zero
marker or one length-prefixed record. -/
theorem c10_out_of_range_dropped (r : Region) (T t : Int) (lvl : Nat) (c : Chunk)
    (hout : ¬ (0 ≤ c.position_to_sector_index ∧ c.position_to_sector_index ≤ 1023)) :
    Region.to_bytes_blinear { chunks := r.chunks ++ [c], timestamp := T } t lvl =
        Region.to_bytes_blinear { chunks := r.chunks, timestamp := T } t lvl ∧
      ∃ blocks : List (List Nat), blocks.length = 1024 ∧
        Region.to_bytes_blinear { chunks := r.chunks, timestamp := T } t lvl =
          (be64 Region.blinearMagic ++ [2] ++ be64 t ++ [lvl % 256]) ++
            blocks.flatten ∧
        ∀ b ∈ blocks, b = be32 0 ∨
          ∃ sec, b = be32 ((sec.length : Nat) : Int) ++ sec ∧ 16 ≤ sec.length := by
  have h0 := Chunk.sector_index_nonneg c
  have hgt : (1023 : Int) < c.position_to_sector_index := by
    have h1 := not_and.mp hout h0
    omega
  have hslot : ∀ i ∈ List.range 1024,
      Region.slotBlock { chunks := r.chunks ++ [c], timestamp := T } i =
        Region.slotBlock { chunks := r.chunks, timestamp := T } i := by
    intro i hi
    have hi1024 : i < 1024 := List.mem_range.mp hi
    have hpc : (c.position_to_sector_index == (i : Int)) = false := by
      rw [beq_eq_false_iff_ne]
      intro h
      omega
    have hfc : List.find? (fun cc => cc.position_to_sector_index == (i : Int)) [c] =
        none := by
      simp [List.find?, hpc]
    cases hfind : List.find?
        (fun cc => cc.position_to_sector_index == (i : Int)) r.chunks with
    | none =>
      have h2 : List.find? (fun cc => cc.position_to_sector_index == (i : Int))
          (r.chunks ++ [c]) = none := by
        rw [List.find?_append, hfind, hfc]
        rfl
      rw [slotBlock_eq_none { chunks := r.chunks ++ [c], timestamp := T } i h2,
        slotBlock_eq_none { chunks := r.chunks, timestamp := T } i hfind]
    | some c2 =>
      have h2 : List.find? (fun cc => cc.position_to_sector_index == (i : Int))
          (r.chunks ++ [c]) = some c2 := by
        rw [List.find?_append, hfind]
        rfl
      rw [slotBlock_eq_some { chunks := r.chunks ++ [c], timestamp := T } i c2 h2,
        slotBlock_eq_some { chunks := r.chunks, timestamp := T } i c2 hfind]
  constructor
  · rw [to_bytes_blinear_eq, to_bytes_blinear_eq, List.map_congr_left hslot]
  · refine ⟨(List.range 1024).map
        (Region.slotBlock { chunks := r.chunks, timestamp := T }),
      by simp, to_bytes_blinear_eq _ t lvl, ?_⟩
    intro b hb
    obtain ⟨i, _, rfl⟩ := List.mem_map.mp hb
    cases hfind : List.find?
        (fun cc => cc.position_to_sector_index == (i : Int)) r.chunks with
    | none =>
      left
      exact slotBlock_eq_none { chunks := r.chunks, timestamp := T } i hfind
    | some c2 =>
      right
      refine ⟨recordSection c2,
        slotBlock_eq_some { chunks := r.chunks, timestamp := T } i c2 hfind, ?_⟩
      rw [length_recordSection]
      omega

/-- Claim C10, witness: the chunk at (31, 31) has sector index 1984,
outside [0, 1023]; appending it to the empty container leaves the
output unchanged. -/
theorem c10_out_of_range_dropped_witness :
    Region.to_bytes_blinear
        { chunks := ([] : List Chunk) ++ [Chunk.new_from_block_pos 31 31 0 []],
          timestamp := 0 } 5 3 =
        Region.to_bytes_blinear { chunks := ([] : List Chunk), timestamp := 0 } 5 3 ∧
      ∃ blocks : List (List Nat), blocks.length = 1024 ∧
        Region.to_bytes_blinear { chunks := ([] : List Chunk), timestamp := 0 } 5 3 =
          (be64 Region.blinearMagic ++ [2] ++ be64 5 ++ [3 % 256]) ++
            blocks.flatten ∧
        ∀ b ∈ blocks, b = be32 0 ∨
          ∃ sec, b = be32 ((sec.length : Nat) : Int) ++ sec ∧ 16 ≤ sec.length :=
  c10_out_of_range_dropped { chunks := [], timestamp := 0 } 0 5 3
    (Chunk.new_from_block_pos 31 31 0 []) (by decide)

end BufferedLinear

namespace BufferedLinear

/-! Claim C1: the blinear round trip. -/

/-- The (x, z, timestamp, payload) view of a chunk through the
accessors `Chunk::x` and `Chunk::z`. -/
def chunkQuad (c : Chunk) : Int × Int × Int × List Nat :=
  (c.x, c.z, c.timestamp, c.data)

/-- The set (as a list) of per-chunk quadruples of a container. -/
def regionQuads (r : Region) : List (Int × Int × Int × List Nat) :=
  r.chunks.map chunkQuad

/-- The single-chunk container, at coordinates (1, 0), on which the
round-trip claim fails. -/
def c1Region : Region :=
  { chunks := [Chunk.new_from_block_pos 1 0 7 [42]], timestamp := 0 }

/-- The container the counterexample decodes to: the chunk of slot 32,
rebuilt from (0, 1), with the encode-time master timestamp. -/
def c1Decoded : Region :=
  { chunks := [Chunk.new_from_block_pos 0 1 7 [42]], timestamp := 5 }

/-- Claim C1, counterexample: the container with one chunk at (1, 0)
(in range, distinct coordinates, N = 1) encodes and decodes without
error, but the decoded container holds the chunk of slot 32, built from
(0, 1) — the quadruple sets differ, so the round trip does not
reproduce the same set of (x, z, timestamp, payload) triples. -/
theorem c1_counterexample :
    Region.from_bytes_blinear (Region.to_bytes_blinear c1Region 5 3) =
        some (Except.ok c1Decoded) ∧
      regionQuads c1Decoded = [(1, 0, 7, [42])] ∧
      regionQuads c1Region = [(0, 1, 7, [42])] ∧
      ((0 : Int), (1 : Int), (7 : Int), ([42] : List Nat)) ∉
        ([((1 : Int), (0 : Int), (7 : Int), ([42] : List Nat))] :
          List (Int × Int × Int × List Nat)) := by
  refine ⟨?_, by decide, by decide, by decide⟩
  rw [from_bytes_blinear_encode c1Region 5 3 (by decide) (by decide)
    (by decide) (by decide)]
  have hidx : (Chunk.new_from_block_pos 1 0 7 [42]).position_to_sector_index = 32 := by
    decide
  have hdc : decodedChunks c1Region = [Chunk.new_from_block_pos 0 1 7 [42]] := by
    unfold decodedChunks c1Region
    simp only [List.find?, hidx]
    decide
  rw [hdc]
  rfl

/-- A chunk of the restricted round-trip family: coordinates (0, z). -/
def entryChunk (e : Nat × Int × List Nat) : Chunk :=
  Chunk.new_from_block_pos 0 (e.1 : Int) e.2.1 e.2.2

/-- A container whose chunks all sit at coordinates (0, z): the family
on which the blinear round trip is exact. -/
def entriesRegion (L : List (Nat × Int × List Nat)) (T : Int) : Region :=
  { chunks := L.map entryChunk, timestamp := T }

theorem sector_index_entry (z : Nat) (hz : z ≤ 31) (t : Int) (d : List Nat) :
    (Chunk.new_from_block_pos 0 (z : Int) t d).position_to_sector_index =
      ((32 * z : Nat) : Int) := by
  rw [Chunk.sector_index_new_from_block_pos 0 (z : Int) t d (by norm_num)
    (by norm_num) (by omega) (by omega)]
  omega

theorem from_sector_entry (z : Nat) (hz : z ≤ 31) (t : Int) (d : List Nat) :
    Chunk.from_sector (32 * z) t d = Chunk.new_from_block_pos 0 (z : Int) t d := by
  simp only [Chunk.from_sector, Chunk.new_from_block_pos, Chunk.mk.injEq, and_true]
  omega

theorem find?_eq_some_of_unique {α : Type} (p : α → Bool) :
    ∀ (L : List α) (a : α), a ∈ L → p a = true →
      (∀ b ∈ L, p b = true → b = a) → L.find? p = some a := by
  intro L
  induction L with
  | nil =>
    intro a ha
    cases ha
  | cons h tl ih =>
    intro a ha hpa huniq
    cases hph : p h with
    | true =>
      have he : h = a := huniq h (by simp) hph
      simp [List.find?_cons, he, hpa]
    | false =>
      have hne : a ≠ h := by
        intro he
        rw [he, hph] at hpa
        cases hpa
      have hmem : a ∈ tl := by
        cases List.mem_cons.mp ha with
        | inl h1 => exact absurd h1 hne
        | inr h2 => exact h2
      simp only [List.find?_cons, hph]
      exact ih a hmem hpa (fun b hb hpb => huniq b (by simp [hb]) hpb)

theorem nodup_key_inj {α : Type} (key : α → Nat) :
    ∀ (L : List α), (L.map key).Nodup →
      ∀ a ∈ L, ∀ b ∈ L, key a = key b → a = b := by
  intro L
  induction L with
  | nil =>
    intro _ a ha
    cases ha
  | cons h tl ih =>
    intro hnd a ha b hb hk
    rw [List.map_cons, List.nodup_cons] at hnd
    obtain ⟨hnotin, hnd2⟩ := hnd
    cases List.mem_cons.mp ha with
    | inl ha1 =>
      cases List.mem_cons.mp hb with
      | inl hb1 => rw [ha1, hb1]
      | inr hb2 =>
        exfalso
        subst ha1
        have h1 : key b ∈ List.map key tl := List.mem_map_of_mem key hb2
        rw [← hk] at h1
        exact hnotin h1
    | inr ha2 =>
      cases List.mem_cons.mp hb with
      | inl hb1 =>
        exfalso
        subst hb1
        have h1 : key a ∈ List.map key tl := List.mem_map_of_mem key ha2
        rw [hk] at h1
        exact hnotin h1
      | inr hb2 => exact ih hnd2 a ha2 b hb2 hk

/-- Claim C1, amended: on containers whose chunks sit at coordinates
(0, z) with pairwise-distinct z in [0, 31] (so the buggy slot formula
stays in range and collision-free), arbitrary i64 timestamps and
payloads below the i32 length bound, the blinear round trip succeeds,
carries the encode-time master timestamp, and reproduces exactly the
same set of (x, z, timestamp, payload) quadruples, for every
compression level. -/
theorem c1_roundtrip_restricted (L : List (Nat × Int × List Nat)) (T t : Int)
    (lvl : Nat)
    (hz : ∀ e ∈ L, e.1 ≤ 31)
    (hnd : (L.map (fun e => e.1)).Nodup)
    (hts : ∀ e ∈ L, -2 ^ 63 ≤ e.2.1 ∧ e.2.1 < 2 ^ 63)
    (hdl : ∀ e ∈ L, e.2.2.length < 2 ^ 31 - 16)
    (ht1 : -2 ^ 63 ≤ t) (ht2 : t < 2 ^ 63) :
    ∃ R2 : Region,
      Region.from_bytes_blinear (Region.to_bytes_blinear (entriesRegion L T) t lvl) =
          some (Except.ok R2) ∧
        R2.timestamp = t ∧
        ∀ q, q ∈ regionQuads R2 ↔ q ∈ regionQuads (entriesRegion L T) := by
  have hd2 : ∀ c ∈ (entriesRegion L T).chunks, c.data.length < 2 ^ 31 - 16 := by
    intro c hc
    obtain ⟨e, he, rfl⟩ := List.mem_map.mp hc
    exact hdl e he
  have hts2 : ∀ c ∈ (entriesRegion L T).chunks,
      -2 ^ 63 ≤ c.timestamp ∧ c.timestamp < 2 ^ 63 := by
    intro c hc
    obtain ⟨e, he, rfl⟩ := List.mem_map.mp hc
    exact hts e he
  refine ⟨{ chunks := decodedChunks (entriesRegion L T), timestamp := t },
    from_bytes_blinear_encode _ t lvl hd2 hts2 ht1 ht2, rfl, ?_⟩
  have hchunk : ∀ ch, ch ∈ decodedChunks (entriesRegion L T) ↔
      ch ∈ (entriesRegion L T).chunks := by
    intro ch
    constructor
    · intro hmem
      obtain ⟨i, hi, hsome⟩ := List.mem_filterMap.mp hmem
      cases hfind : List.find? (fun c => c.position_to_sector_index == (i : Int))
          (entriesRegion L T).chunks with
      | none =>
        rw [hfind] at hsome
        cases hsome
      | some c =>
        rw [hfind] at hsome
        have hfc : Chunk.from_sector i c.timestamp c.data = ch :=
          Option.some.inj hsome
        have hc : c ∈ (entriesRegion L T).chunks := List.mem_of_find?_eq_some hfind
        have hp := List.find?_some hfind
        have hpi : c.position_to_sector_index = (i : Int) := eq_of_beq hp
        obtain ⟨e, he, hce⟩ := List.mem_map.mp hc
        have hze := hz e he
        have hsec : c.position_to_sector_index = ((32 * e.1 : Nat) : Int) := by
          rw [← hce]
          exact sector_index_entry e.1 hze e.2.1 e.2.2
        have hie : i = 32 * e.1 := by
          rw [hpi] at hsec
          omega
        have hcht : Chunk.from_sector i c.timestamp c.data = c := by
          rw [hie, ← hce]
          rw [show (entryChunk e).timestamp = e.2.1 from rfl,
            show (entryChunk e).data = e.2.2 from rfl]
          exact from_sector_entry e.1 hze e.2.1 e.2.2
        rw [← hfc, hcht]
        exact hc
    · intro hmem
      obtain ⟨e, he, rfl⟩ := List.mem_map.mp hmem
      have hze := hz e he
      apply List.mem_filterMap.mpr
      refine ⟨32 * e.1, List.mem_range.mpr (by omega), ?_⟩
      have hptrue : ((entryChunk e).position_to_sector_index ==
          ((32 * e.1 : Nat) : Int)) = true := by
        have h1 : (entryChunk e).position_to_sector_index =
            ((32 * e.1 : Nat) : Int) := sector_index_entry e.1 hze e.2.1 e.2.2
        rw [h1]
        exact beq_self_eq_true _
      have hfind : List.find?
          (fun c => c.position_to_sector_index == ((32 * e.1 : Nat) : Int))
          (entriesRegion L T).chunks = some (entryChunk e) := by
        apply find?_eq_some_of_unique _ _ _ (List.mem_map_of_mem entryChunk he)
          hptrue
        intro b hb hpb
        obtain ⟨e2, he2, hbe2⟩ := List.mem_map.mp hb
        have hze2 := hz e2 he2
        have hsec2 : b.position_to_sector_index = ((32 * e2.1 : Nat) : Int) := by
          rw [← hbe2]
          exact sector_index_entry e2.1 hze2 e2.2.1 e2.2.2
        have hbeq : b.position_to_sector_index = ((32 * e.1 : Nat) : Int) :=
          eq_of_beq hpb
        have he21 : e2.1 = e.1 := by
          rw [hsec2] at hbeq
          omega
        have : e2 = e := nodup_key_inj _ L hnd e2 he2 e he (by rw [he21])
        rw [← hbe2, this]
      rw [hfind]
      have hrec : Chunk.from_sector (32 * e.1) (entryChunk e).timestamp
          (entryChunk e).data = entryChunk e := by
        rw [show (entryChunk e).timestamp = e.2.1 from rfl,
          show (entryChunk e).data = e.2.2 from rfl]
        exact from_sector_entry e.1 hze e.2.1 e.2.2
      exact congrArg some hrec
  intro q
  simp only [regionQuads, List.mem_map]
  constructor
  · rintro ⟨ch, hch, rfl⟩
    exact ⟨ch, (hchunk ch).mp hch, rfl⟩
  · rintro ⟨ch, hch, rfl⟩
    exact ⟨ch, (hchunk ch).mpr hch, rfl⟩

/-- Claim C1, witness: the restricted round trip at the concrete
two-chunk container with entries z = 0 and z = 3. -/
theorem c1_roundtrip_restricted_witness :
    ∃ R2 : Region,
      Region.from_bytes_blinear (Region.to_bytes_blinear
          (entriesRegion [(0, 7, [42]), (3, 8, [1, 2])] 9) 5 3) =
          some (Except.ok R2) ∧
        R2.timestamp = 5 ∧
        ∀ q, q ∈ regionQuads R2 ↔
          q ∈ regionQuads (entriesRegion [(0, 7, [42]), (3, 8, [1, 2])] 9) :=
  c1_roundtrip_restricted [(0, 7, [42]), (3, 8, [1, 2])] 9 5 3
    (by decide) (by decide) (by decide) (by decide) (by decide) (by decide)

end BufferedLinear

namespace BufferedLinear

/-! Claim C9: the checksum field has no effect on blinear decode. -/

/-- Two blocks that agree except possibly in the four checksum bytes of
a record (bytes 16..19 of the block, 12..15 of its section): either an
identical marker, or two records of equal length agreeing on the first
16 bytes and from byte 20 on. -/
def BlockEq (b1 b2 : List Nat) : Prop :=
  (MarkerBlock b1 ∧ b1 = b2) ∨
    (RecordBlock b1 ∧ RecordBlock b2 ∧ b1.length = b2.length ∧
      b1.take 16 = b2.take 16 ∧ b1.drop 20 = b2.drop 20)

instance (b : List Nat) : Decidable (MarkerBlock b) := by
  unfold MarkerBlock
  infer_instance

instance (b : List Nat) : Decidable (RecordBlock b) := by
  unfold RecordBlock
  infer_instance

instance (b1 b2 : List Nat) : Decidable (BlockEq b1 b2) := by
  unfold BlockEq
  infer_instance

theorem blockEq_wf_left {b1 b2 : List Nat} (h : BlockEq b1 b2) : WFBlock b1 := by
  rcases h with ⟨hm, _⟩ | ⟨hr, _⟩
  · exact Or.inl hm
  · exact Or.inr hr

theorem blockEq_wf_right {b1 b2 : List Nat} (h : BlockEq b1 b2) : WFBlock b2 := by
  rcases h with ⟨hm, he⟩ | ⟨_, hr, _⟩
  · exact Or.inl (he ▸ hm)
  · exact Or.inr hr

theorem forall₂_wf_left {bs1 bs2 : List (List Nat)}
    (h : List.Forall₂ BlockEq bs1 bs2) : ∀ b ∈ bs1, WFBlock b := by
  induction h with
  | nil =>
    intro b hb
    cases hb
  | cons hab _ ih =>
    intro b hb
    cases List.mem_cons.mp hb with
    | inl h1 => exact h1 ▸ blockEq_wf_left hab
    | inr h2 => exact ih b h2

theorem forall₂_wf_right {bs1 bs2 : List (List Nat)}
    (h : List.Forall₂ BlockEq bs1 bs2) : ∀ b ∈ bs2, WFBlock b := by
  induction h with
  | nil =>
    intro b hb
    cases hb
  | cons hab _ ih =>
    intro b hb
    cases List.mem_cons.mp hb with
    | inl h1 => exact h1 ▸ blockEq_wf_right hab
    | inr h2 => exact ih b h2

/-- The sector loop reads a record only through its length, its first
16 bytes minus the checksum field, and its payload, so checksum-only
differences do not change the result. -/
theorem blocksResult_congr {bs1 bs2 : List (List Nat)}
    (h : List.Forall₂ BlockEq bs1 bs2) :
    ∀ idxs : List Nat, blocksResult bs1 idxs = blocksResult bs2 idxs := by
  induction h with
  | nil =>
    intro idxs
    cases idxs <;> rfl
  | @cons a b bs1 bs2 hab htail ih =>
    intro idxs
    cases idxs with
    | nil => rfl
    | cons i rest =>
      rcases hab with ⟨_, he⟩ | ⟨hr1, hr2, hlen, h16, h20⟩
      · subst he
        simp only [blocksResult, ih rest]
      · have h41 : ¬ a.length = 4 := by
          obtain ⟨_, hl, _⟩ := hr1
          omega
        have h42 : ¬ b.length = 4 := by
          obtain ⟨_, hl, _⟩ := hr2
          omega
        have e1 : (a.drop 4).drop 4 = a.drop 8 := by
          rw [List.drop_drop]
        have e2 : (b.drop 4).drop 4 = b.drop 8 := by
          rw [List.drop_drop]
        have hts8 : ((a.drop 4).drop 4).take 8 = ((b.drop 4).drop 4).take 8 := by
          rw [e1, e2]
          have h3 := congrArg (List.drop 8) h16
          rw [List.drop_take, List.drop_take] at h3
          norm_num at h3
          exact h3
        have hd16 : (a.drop 4).drop 16 = (b.drop 4).drop 16 := by
          rw [List.drop_drop, List.drop_drop]
          norm_num
          exact h20
        simp only [blocksResult, if_neg h41, if_neg h42, hts8, hd16, ih rest]

/-- Claim C9: the stored per-record checksum has no effect on blinear
decode: two buffers with the same 18-byte header whose bodies are
pointwise-equivalent blocks (identical markers, or records identical
except in the four checksum bytes) decode to equal results — same
success or failure, same chunks, same master timestamp. -/
theorem c9_checksum_ignored (hdr : List Nat) (bs1 bs2 : List (List Nat))
    (hh : hdr.length = 18) (heq : List.Forall₂ BlockEq bs1 bs2) :
    Region.from_bytes_blinear (hdr ++ bs1.flatten) =
      Region.from_bytes_blinear (hdr ++ bs2.flatten) := by
  rw [from_bytes_blinear_append hdr bs1 hh (forall₂_wf_left heq),
    from_bytes_blinear_append hdr bs2 hh (forall₂_wf_right heq),
    blocksResult_congr heq (List.range 1024)]

/-- Claim C9, witness: a concrete record whose checksum field is 0 in
one buffer and 5 in the other decodes identically. -/
theorem c9_checksum_ignored_witness :
    Region.from_bytes_blinear ((be64 Region.blinearMagic ++ [2] ++ be64 0 ++ [0]) ++
        ([be32 17 ++ (be32 1 ++ be64 0 ++ be32 0 ++ [9])] : List (List Nat)).flatten) =
      Region.from_bytes_blinear ((be64 Region.blinearMagic ++ [2] ++ be64 0 ++ [0]) ++
        ([be32 17 ++ (be32 1 ++ be64 0 ++ be32 5 ++ [9])] : List (List Nat)).flatten) :=
  c9_checksum_ignored (be64 Region.blinearMagic ++ [2] ++ be64 0 ++ [0])
    [be32 17 ++ (be32 1 ++ be64 0 ++ be32 0 ++ [9])]
    [be32 17 ++ (be32 1 ++ be64 0 ++ be32 5 ++ [9])]
    (by decide)
    (List.Forall₂.cons (by decide) List.Forall₂.nil)

end BufferedLinear

namespace BufferedLinear

/-! Linear v2 record machinery: the inner `iz` loop of
`from_bytes_linear_v2` on a run of serialized records. -/

/-- Serialized form of one optional chunk record of a linear v2 bucket:
an empty record is a nonpositive size and a timestamp (12 bytes); a
populated record is `size = 8 + payload length`, timestamp, payload. -/
def recBytes : Option (Int × List Nat) → List Nat
  | none => be32 0 ++ be64 0
  | some (t, d) => be32 ((8 + d.length : Nat) : Int) ++ be64 t ++ d

/-- Representability of a record: payload short enough for its size to
fit a positive i32, timestamp an i64. -/
def RecWF : Option (Int × List Nat) → Prop
  | none => True
  | some (t, d) => d.length < 2 ^ 31 - 8 ∧ -2 ^ 63 ≤ t ∧ t < 2 ^ 63

/-- The chunk the linear decoder builds for record index `chunk_index`
of a region at (region_x, region_z). -/
def linChunk (region_x region_z : Int) (chunk_index : Nat) (t : Int)
    (d : List Nat) : Chunk :=
  Chunk.new_from_block_pos (32 * region_x + (chunk_index % 32 : Nat))
    (32 * region_z + (chunk_index / 32 : Nat)) t d

theorem length_recBytes_none : (recBytes none).length = 12 := rfl

theorem length_recBytes_some (t : Int) (d : List Nat) :
    (recBytes (some (t, d))).length = 12 + d.length := by
  simp [recBytes, length_be32, length_be64, List.length_append]
  omega

theorem length_recBytes (o : Option (Int × List Nat)) :
    12 ≤ (recBytes o).length := by
  cases o with
  | none => rw [length_recBytes_none]
  | some td =>
    cases td with
    | mk t d =>
      rw [length_recBytes_some]
      omega

/-- The `iz` loop breaks immediately when fewer than 12 bytes remain. -/
theorem readIzLoop_break (d : List Nat) (rx rz : Int) (x z dim ix : Nat)
    (izs : List Nat) (rp : Nat) (h : d.length < rp + 12) :
    Region.readIzLoop d rx rz x z dim ix izs rp = some (rp, []) := by
  cases izs with
  | nil => rfl
  | cons iz rest =>
    simp only [Region.readIzLoop]
    rw [if_pos (by omega)]

/-- The `iz` loop on a run of serialized records starting right after
`pre`: it consumes one record per iteration (an empty record advances
the pointer only; a populated one adds the chunk of its record index),
and it stops either when the iteration list ends (a full segment) or,
when fewer than 12 bytes remain after the records, by the break. The
record index of a populated record is the loop's chunk_index value. -/
theorem readIzLoop_spec (rx rz : Int) (x z dim ix : Nat) :
    ∀ (izs : List Nat) (rs : List (Option (Int × List Nat))) (pre suf : List Nat),
      (∀ o ∈ rs, RecWF o) →
      (rs.length = izs.length ∨ (rs.length ≤ izs.length ∧ suf.length < 12)) →
      Region.readIzLoop (pre ++ (rs.map recBytes).flatten ++ suf) rx rz x z dim ix
          izs pre.length =
        some (pre.length + ((rs.map recBytes).flatten).length,
          (izs.zip rs).filterMap (fun p => p.2.map (fun td =>
            linChunk rx rz ((x * dim + ix) + (z * dim + p.1) * 32) td.1 td.2))) := by
  intro izs
  induction izs with
  | nil =>
    intro rs pre suf hwf hcond
    have hrs : rs = [] := by
      rcases hcond with h | ⟨h, _⟩ <;> simp at h <;> exact h
    subst hrs
    simp [Region.readIzLoop]
  | cons iz rest ih =>
    intro rs pre suf hwf hcond
    cases rs with
    | nil =>
      have hsuf : suf.length < 12 := by
        rcases hcond with h | ⟨_, h⟩
        · simp at h
        · exact h
      simp only [List.map_nil, List.flatten_nil, List.append_nil]
      rw [readIzLoop_break _ _ _ _ _ _ _ _ _
        (by rw [List.length_append]; omega)]
      simp
    | cons o rs2 =>
      have hwfo : RecWF o := hwf o (by simp)
      have hwf2 : ∀ p ∈ rs2, RecWF p := fun p hp => hwf p (by simp [hp])
      have hcond2 : rs2.length = rest.length ∨
          (rs2.length ≤ rest.length ∧ suf.length < 12) := by
        rcases hcond with h | ⟨h, hs⟩
        · left
          simpa using h
        · right
          exact ⟨by simpa using h, hs⟩
      have hrb := length_recBytes o
      have hd : pre ++ ((o :: rs2).map recBytes).flatten ++ suf =
          pre ++ (recBytes o ++ ((rs2.map recBytes).flatten ++ suf)) := by
        simp [List.append_assoc]
      have hdlen : (pre ++ ((o :: rs2).map recBytes).flatten ++ suf).length =
          pre.length + ((recBytes o).length +
            (((rs2.map recBytes).flatten).length + suf.length)) := by
        rw [hd]
        simp [List.length_append]
      have hnobreak : ¬ (pre.length + 12 >
          (pre ++ ((o :: rs2).map recBytes).flatten ++ suf).length) := by
        rw [hdlen]
        omega
      have hs4 : slice (pre ++ ((o :: rs2).map recBytes).flatten ++ suf)
          pre.length 4 = some ((recBytes o).take 4) := by
        rw [hd, slice_at_append _ _ _ (by simp [List.length_append]; omega),
          List.take_append_of_le_length (by omega)]
      have hs8 : slice (pre ++ ((o :: rs2).map recBytes).flatten ++ suf)
          (pre.length + 4) 8 = some (((recBytes o).drop 4).take 8) := by
        have hgrp : pre ++ ((o :: rs2).map recBytes).flatten ++ suf =
            (pre ++ (recBytes o).take 4) ++
              ((recBytes o).drop 4 ++ ((rs2.map recBytes).flatten ++ suf)) := by
          rw [hd, List.append_assoc pre (List.take 4 (recBytes o)),
            ← List.append_assoc (List.take 4 (recBytes o)) (List.drop 4 (recBytes o)),
            List.take_append_drop]
        rw [hgrp,
          show pre.length + 4 = (pre ++ (recBytes o).take 4).length by
            rw [List.length_append, List.length_take]
            omega,
          slice_at_append _ _ _
            (by simp [List.length_append, List.length_drop]; omega),
          List.take_append_of_le_length (by simp [List.length_drop]; omega)]
      cases o with
      | none =>
        have hread : readI32 ((recBytes none).take 4) = 0 := by
          decide
        have hrec := ih rs2 (pre ++ recBytes none) suf hwf2 hcond2
        rw [show (pre ++ recBytes none).length = pre.length + 12 by
          rw [List.length_append, length_recBytes_none]] at hrec
        rw [show (pre ++ recBytes none) ++ (rs2.map recBytes).flatten ++ suf =
            pre ++ ((none :: rs2).map recBytes).flatten ++ suf by
          simp [List.append_assoc]] at hrec
        simp only [Region.readIzLoop, if_neg hnobreak, hs4, hs8, optBind_some,
          hread]
        rw [if_pos (by norm_num)]
        rw [hrec]
        simp only [List.map_cons, List.flatten_cons, List.length_append,
          length_recBytes_none, List.zip_cons_cons, List.filterMap_cons]
        rw [show pre.length + 12 +
            ((rs2.map recBytes).flatten).length =
            pre.length + (12 + ((rs2.map recBytes).flatten).length) by omega]
        rfl
      | some td =>
        cases td with
        | mk t d0 =>
          obtain ⟨hd0, ht1, ht2⟩ := hwfo
          have hrbeq : recBytes (some (t, d0)) =
              be32 ((8 + d0.length : Nat) : Int) ++ (be64 t ++ d0) := by
            simp [recBytes, List.append_assoc]
          have htk4 : (recBytes (some (t, d0))).take 4 =
              be32 ((8 + d0.length : Nat) : Int) := by
            rw [hrbeq, List.take_append_of_le_length (by rw [length_be32]),
              show (4 : Nat) = (be32 ((8 + d0.length : Nat) : Int)).length from
                (length_be32 _).symm,
              List.take_length]
          have hread : readI32 ((recBytes (some (t, d0))).take 4) =
              ((8 + d0.length : Nat) : Int) := by
            rw [htk4]
            exact readI32_be32 _ (by omega) (by push_cast; omega)
          have hts8 : ((recBytes (some (t, d0))).drop 4).take 8 = be64 t := by
            rw [hrbeq, drop_exact _ _ _ (length_be32 _),
              List.take_append_of_le_length (by rw [length_be64]),
              show (8 : Nat) = (be64 t).length from (length_be64 _).symm,
              List.take_length]
          have hsize : ¬ (readI32 ((recBytes (some (t, d0))).take 4) ≤ 0) := by
            rw [hread]
            push_cast
            omega
          have hcds : (((readI32 ((recBytes (some (t, d0))).take 4) - 8) %
              (2 ^ 64 : Int))).toNat = d0.length := by
            rw [hread]
            omega
          have hdata : slice (pre ++ ((some (t, d0) :: rs2).map recBytes).flatten ++ suf)
              (pre.length + 12) d0.length =
              some d0 := by
            have hgrp : pre ++ ((some (t, d0) :: rs2).map recBytes).flatten ++ suf =
                (pre ++ (be32 ((8 + d0.length : Nat) : Int) ++ be64 t)) ++
                  (d0 ++ ((rs2.map recBytes).flatten ++ suf)) := by
              simp [recBytes, List.append_assoc]
            rw [hgrp,
              show pre.length + 12 =
                  (pre ++ (be32 ((8 + d0.length : Nat) : Int) ++ be64 t)).length by
                simp [List.length_append, length_be32, length_be64],
              slice_at_append _ _ _ (by simp [List.length_append]),
              List.take_append_of_le_length (by omega),
              List.take_length]
          have hrec := ih rs2 (pre ++ recBytes (some (t, d0))) suf hwf2 hcond2
          rw [show (pre ++ recBytes (some (t, d0))).length =
              pre.length + (12 + d0.length) by
            rw [List.length_append, length_recBytes_some]] at hrec
          rw [show (pre ++ recBytes (some (t, d0))) ++ (rs2.map recBytes).flatten ++ suf =
              pre ++ ((some (t, d0) :: rs2).map recBytes).flatten ++ suf by
            simp [List.append_assoc]] at hrec
          simp only [Region.readIzLoop, if_neg hnobreak, hs4, hs8, optBind_some,
            if_neg hsize, hcds, hdata, hts8,
            readI64_be64 t ht1 ht2,
            show pre.length + 12 + d0.length = pre.length + (12 + d0.length) by omega,
            hrec]
          simp only [List.map_cons, List.flatten_cons, List.length_append,
            length_recBytes_some, List.zip_cons_cons, List.filterMap_cons]
          rw [show pre.length + (12 + d0.length) +
              ((rs2.map recBytes).flatten).length =
              pre.length + (12 + d0.length +
                ((rs2.map recBytes).flatten).length) by omega]
          rfl

end BufferedLinear

namespace BufferedLinear

/-! Concrete linear v2 inputs for the claims about
`Region::from_bytes_linear_v2`. -/

theorem byteAt_append_left (u v : List Nat) (i : Nat) (h : i < u.length) :
    byteAt (u ++ v) i = byteAt u i := by
  unfold byteAt
  rw [List.get?_eq_getElem?, List.get?_eq_getElem?, List.getElem?_append_left h]

theorem byteAt_append_right (u v : List Nat) (i : Nat) (h : u.length ≤ i) :
    byteAt (u ++ v) i = byteAt v (i - u.length) := by
  unfold byteAt
  rw [List.get?_eq_getElem?, List.get?_eq_getElem?, List.getElem?_append_right h]

theorem length_flatten_replicate (n : Nat) (l : List Nat) :
    ((List.replicate n l).flatten).length = n * l.length := by
  induction n with
  | zero => simp
  | succ m ih =>
    rw [List.replicate_succ, List.flatten_cons, List.length_append, ih]
    ring

theorem flatten_replicate_split (a b : Nat) (l s : List Nat) :
    (List.replicate (a + b) l).flatten ++ s =
      (List.replicate a l).flatten ++ ((List.replicate b l).flatten ++ s) := by
  rw [List.replicate_add, List.flatten_append, List.append_assoc]

/-- The single bucket payload of the C5 scenario: 160 empty records
(positions 0..159) followed by one populated record at position 160,
which the decoder reaches at `ix = 5`, `iz = 0`, i.e. chunk_index 5,
with timestamp 0 and a one-byte chunk payload `[42]`. 1933 bytes. -/
def c5Payload : List Nat :=
  (List.replicate 160 (recBytes none)).flatten ++ recBytes (some ((0 : Int), [42]))

/-- Header of the C5 input: linear v2 magic, version 3, file timestamp 0,
grid_size 1, region_x 2, region_z -1, 128 skipped reserved bytes, an
empty feature list (a single 0 terminator), then the one bucket
descriptor: size 1933, compression level byte, 8 reserved bytes.
168 bytes, so the bucket payload starts at offset 168. -/
def c5Head : List Nat :=
  beBytes8 Region.linearMagic ++ [3] ++ be64 0 ++ [1] ++ be32 2 ++ be32 (-1) ++
    List.replicate 128 0 ++ [0] ++ be32 1933 ++ [0] ++ List.replicate 8 0

/-- The full C5 input file. -/
def c5Input : List Nat := c5Head ++ c5Payload

/-- The container C5 expects: exactly one chunk, built by the decoder as
`new_from_block_pos(69, -32, 0, [42])` from `global_x = 32 * 2 + 5` and
`global_z = 32 * (-1) + 0`. -/
def c5Expected : Region :=
  { chunks := [Chunk.new_from_block_pos 69 (-32) 0 [42]], timestamp := 0 }

theorem c5Payload_length : c5Payload.length = 1933 := by
  rw [show c5Payload = (List.replicate 160 (recBytes none)).flatten ++
      recBytes (some ((0 : Int), [42])) from rfl, List.length_append,
    length_flatten_replicate, length_recBytes_none, length_recBytes_some]
  norm_num

/-- Any of the first five `ix` iterations of the C5 bucket: a full
segment of 32 empty records advances the pointer by 384 bytes and yields
no chunks. -/
theorem readIzLoop_skip_empty (ix a rp : Nat) (ha : a + 32 ≤ 160)
    (hrp : rp = 12 * a) :
    Region.readIzLoop c5Payload 2 (-1) 0 0 32 ix (List.range 32) rp =
      some (rp + 384, []) := by
  subst hrp
  have hpre : ((List.replicate a (recBytes none)).flatten).length = 12 * a := by
    rw [length_flatten_replicate, length_recBytes_none]
    ring
  have heq : c5Payload =
      (List.replicate a (recBytes none)).flatten ++
        (((List.replicate 32 (none : Option (Int × List Nat))).map recBytes).flatten ++
          ((List.replicate (128 - a) (recBytes none)).flatten ++
            recBytes (some ((0 : Int), [42])))) := by
    rw [show c5Payload = (List.replicate 160 (recBytes none)).flatten ++
        recBytes (some ((0 : Int), [42])) from rfl,
      show (160 : Nat) = a + (32 + (128 - a)) by omega,
      flatten_replicate_split, flatten_replicate_split, List.map_replicate]
  have hspec := readIzLoop_spec 2 (-1) 0 0 32 ix (List.range 32)
      (List.replicate 32 (none : Option (Int × List Nat)))
      ((List.replicate a (recBytes none)).flatten)
      ((List.replicate (128 - a) (recBytes none)).flatten ++
        recBytes (some ((0 : Int), [42])))
      (fun o ho => by rw [List.eq_of_mem_replicate ho]; exact trivial)
      (Or.inl (by simp))
  rw [List.append_assoc, ← heq, hpre] at hspec
  rw [hspec]
  have hmid : (((List.replicate 32 (none : Option (Int × List Nat))).map
      recBytes).flatten).length = 384 := by
    rw [List.map_replicate, length_flatten_replicate, length_recBytes_none]
  have hz : ((List.range 32).zip
      (List.replicate 32 (none : Option (Int × List Nat)))).filterMap
      (fun p => p.2.map (fun td =>
        linChunk 2 (-1) ((0 * 32 + ix) + (0 * 32 + p.1) * 32) td.1 td.2)) = [] := by
    rw [List.filterMap_eq_nil_iff]
    intro p hp
    rw [List.eq_of_mem_replicate (List.of_mem_zip hp).2]
    rfl
  rw [hmid, hz]

/-- The sixth `ix` iteration of the C5 bucket: the populated record at
record position 160 (iz = 0) becomes the chunk of chunk_index 5, after
which only 0 bytes remain and the loop breaks. -/
theorem readIzLoop_record_c5 :
    Region.readIzLoop c5Payload 2 (-1) 0 0 32 5 (List.range 32) 1920 =
      some (1933, [Chunk.new_from_block_pos 69 (-32) 0 [42]]) := by
  have heq : c5Payload =
      (List.replicate 160 (recBytes none)).flatten ++
        ((([some ((0 : Int), [42])] : List (Option (Int × List Nat))).map
          recBytes).flatten ++ ([] : List Nat)) := by
    simp [c5Payload]
  have hwf : ∀ o ∈ ([some ((0 : Int), [42])] : List (Option (Int × List Nat))),
      RecWF o := by
    intro o ho
    simp at ho
    rw [ho]
    exact ⟨by norm_num, by norm_num, by norm_num⟩
  have hspec := readIzLoop_spec 2 (-1) 0 0 32 5 (List.range 32)
      [some ((0 : Int), [42])] ((List.replicate 160 (recBytes none)).flatten) []
      hwf (Or.inr ⟨by simp, by simp⟩)
  have hpre : ((List.replicate 160 (recBytes none)).flatten).length = 1920 := by
    rw [length_flatten_replicate, length_recBytes_none]
  rw [List.append_assoc, ← heq, hpre] at hspec
  rw [hspec]
  decide

end BufferedLinear

namespace BufferedLinear

/-- Full `ix` loop over the C5 bucket: five empty segments, the record
segment at `ix = 5`, then 26 iterations that break immediately because
the payload is exhausted. -/
theorem readIxLoop_c5 :
    Region.readIxLoop c5Payload 2 (-1) 0 0 32 (List.range 32) 0 =
      some (1933, [Chunk.new_from_block_pos 69 (-32) 0 [42]]) := by
  have hdrain : ∀ (ix : Nat) (izs : List Nat),
      Region.readIzLoop c5Payload 2 (-1) 0 0 32 ix izs 1933 = some (1933, []) := by
    intro ix izs
    apply readIzLoop_break
    rw [c5Payload_length]
    omega
  have h0 := readIzLoop_skip_empty 0 0 0 (by omega) (by norm_num)
  have h1 := readIzLoop_skip_empty 1 32 384 (by omega) (by norm_num)
  have h2 := readIzLoop_skip_empty 2 64 768 (by omega) (by norm_num)
  have h3 := readIzLoop_skip_empty 3 96 1152 (by omega) (by norm_num)
  have h4 := readIzLoop_skip_empty 4 128 1536 (by omega) (by norm_num)
  have hr32 : List.range 32 =
      [0, 1, 2, 3, 4, 5, 6, 7, 8, 9, 10, 11, 12, 13, 14, 15, 16, 17, 18, 19,
        20, 21, 22, 23, 24, 25, 26, 27, 28, 29, 30, 31] := by
    decide
  rw [hr32]
  have h5 := readIzLoop_record_c5
  simp only [Region.readIxLoop, h0, h1, h2, h3, h4, h5, hdrain, optBind_some]
  norm_num

end BufferedLinear

namespace BufferedLinear

theorem c5Head_length : c5Head.length = 168 := by decide

/-- The feature loop returns at once when the byte at the current
pointer is the zero terminator. -/
theorem skipFeatures_zero (bytes : List Nat) (ptr fuel : Nat)
    (h : byteAt bytes ptr = some 0) :
    Region.skipFeatures bytes ptr (fuel + 1) = some (ptr + 1) := by
  simp only [Region.skipFeatures, h, optBind_some]
  rfl

theorem c5Input_length : c5Input.length = 2101 := by
  rw [show c5Input = c5Head ++ c5Payload from rfl, List.length_append,
    c5Head_length, c5Payload_length]

/-- The single bucket of the C5 input: size 1933 at offset 168,
decompressing to `c5Payload` and producing exactly the chunk_index 5
chunk; the recursive call on the empty pair list terminates. -/
theorem readBuckets_c5 :
    Region.readBuckets (c5Head ++ c5Payload) 1 2 (-1) [1933] [(0, 0)] 168 =
      some (2101, [Chunk.new_from_block_pos 69 (-32) 0 [42]]) := by
  have hgetD : (([1933] : List Int)).getD (0 * 1 + 0) 0 = 1933 := by decide
  have hlen1933 : ((((1933 : Int)) % (2 ^ 64 : Int))).toNat = 1933 := by decide
  have hslice : slice (c5Head ++ c5Payload) 168 1933 = some c5Payload := by
    rw [show (168 : Nat) = c5Head.length from c5Head_length.symm,
      slice_at_append _ _ _ (by rw [c5Payload_length]),
      show (1933 : Nat) = c5Payload.length from c5Payload_length.symm,
      List.take_length]
  have hix := readIxLoop_c5
  simp only [Region.readBuckets, hgetD, hlen1933, hslice, zstdDecodeAll,
    Nat.div_one, hix, optBind_some]
  norm_num

end BufferedLinear

namespace BufferedLinear

/-- C5: linear v2 decode of a well-formed input with grid_size 1,
region_x 2, region_z -1 and a single populated record at chunk_index 5
in the single bucket yields a container with exactly one chunk, built
as `new_from_block_pos(69, -32, timestamp, payload)` from the global
coordinates x = 32 * 2 + 5 = 69 and z = 32 * (-1) + 0 = -32. -/
theorem c5_single_record_decode :
    Region.from_bytes_linear_v2 c5Input = some (Except.ok c5Expected) ∧
      c5Expected.chunks.length = 1 := by
  refine ⟨?_, rfl⟩
  rw [show c5Input = c5Head ++ c5Payload from rfl]
  have h08 : slice (c5Head ++ c5Payload) 0 8 = some (beBytes8 Region.linearMagic) := by
    rw [slice_append_left _ _ _ _ (by rw [c5Head_length]; omega)]
    decide
  have h8 : byteAt (c5Head ++ c5Payload) 8 = some 3 := by
    rw [byteAt_append_left _ _ _ (by rw [c5Head_length]; omega)]
    decide
  have h9 : slice (c5Head ++ c5Payload) 9 8 = some (be64 0) := by
    rw [slice_append_left _ _ _ _ (by rw [c5Head_length]; omega)]
    decide
  have h17 : byteAt (c5Head ++ c5Payload) 17 = some 1 := by
    rw [byteAt_append_left _ _ _ (by rw [c5Head_length]; omega)]
    decide
  have h18 : slice (c5Head ++ c5Payload) 18 4 = some (be32 2) := by
    rw [slice_append_left _ _ _ _ (by rw [c5Head_length]; omega)]
    decide
  have h22 : slice (c5Head ++ c5Payload) 22 4 = some (be32 (-1)) := by
    rw [slice_append_left _ _ _ _ (by rw [c5Head_length]; omega)]
    decide
  have hb154 : byteAt (c5Head ++ c5Payload) (26 + 128) = some 0 := by
    rw [byteAt_append_left _ _ _ (by rw [c5Head_length]; omega)]
    decide
  have hsf := skipFeatures_zero (c5Head ++ c5Payload) (26 + 128)
    ((c5Head ++ c5Payload).length) hb154
  have hbs2 : Region.readBucketSizes (c5Head ++ c5Payload) 155 1 [] =
      some (168, [1933]) := by
    have ha : slice (c5Head ++ c5Payload) 155 4 = some (be32 1933) := by
      rw [slice_append_left _ _ _ _ (by rw [c5Head_length]; omega)]
      decide
    have hb : byteAt (c5Head ++ c5Payload) (155 + 4) = some 0 := by
      rw [byteAt_append_left _ _ _ (by rw [c5Head_length]; omega)]
      decide
    rw [show (1 : Nat) = 0 + 1 from rfl]
    simp only [Region.readBucketSizes, ha, hb, optBind_some]
    decide
  have hbs1 : Region.readBucketSizes (c5Head ++ c5Payload) 155 (1 * 1) [] =
      some (168, [1933]) := hbs2
  have hri2 : readI32 (be32 2) = 2 := by decide
  have hrim1 : readI32 (be32 (-1)) = -1 := by decide
  have hri0 : readI64 (be64 0) = 0 := by decide
  have hpairs : (List.range 1).flatMap
      (fun x => (List.range 1).map (fun z => (x, z))) = [(0, 0)] := by
    decide
  have hrb := readBuckets_c5
  simp only [Region.from_bytes_linear_v2, h08, h8, h9, h17, h18, h22, hsf,
    hbs1, hbs2, hri2, hrim1, hri0, hpairs, hrb, optBind_some]
  rfl

end BufferedLinear

namespace BufferedLinear

theorem byteAt_eq_none (d : List Nat) (i : Nat) (h : d.length ≤ i) :
    byteAt d i = none := by
  unfold byteAt
  rw [List.get?_eq_getElem?]
  exact List.getElem?_eq_none h

/-- A nonzero feature-name length makes the feature loop skip ahead by
that many bytes plus five. -/
theorem skipFeatures_step (bytes : List Nat) (ptr fuel n : Nat)
    (h : byteAt bytes ptr = some (n + 1)) :
    Region.skipFeatures bytes ptr (fuel + 1) =
      Region.skipFeatures bytes (ptr + 1 + (n + 1) + 4) fuel := by
  simp only [Region.skipFeatures, h, optBind_some]
  rw [if_neg (by omega)]

/-- Reading the feature-name length out of bounds is the `bytes[ptr]`
panic of the loop. -/
theorem skipFeatures_oob (bytes : List Nat) (ptr fuel : Nat)
    (h : byteAt bytes ptr = none) :
    Region.skipFeatures bytes ptr (fuel + 1) = none := by
  simp only [Region.skipFeatures, h, optBind_none]

/-- A syntactically valid linear v2 header (magic, version 3, grid_size
0, region (0, 0), 128 reserved bytes) up to the point where the feature
loop starts reading: 154 bytes, so byte 154 is the first feature-name
length. -/
def c7Header : List Nat :=
  beBytes8 Region.linearMagic ++ [3] ++ be64 0 ++ [0] ++ be32 0 ++ be32 0 ++
    List.replicate 128 0

end BufferedLinear

namespace BufferedLinear

theorem c7Header_length : c7Header.length = 154 := by decide

/-- The C7 truncation family: after a valid 154-byte header, a feature
descriptor whose one-byte name length `k + 1` claims at least as many
bytes (name plus four-byte value) as remain in the buffer. The decoder
panics (`none`): its loop indexes `bytes[...]` out of bounds instead of
returning an error, and `ParseError` has no `BufferUnderrun` variant at
all, only `ReadError`, `HeaderError` and `VersionError`. -/
theorem c7_truncated_feature_panics (k : Nat) (tail : List Nat)
    (htail : tail.length ≤ k + 4) :
    Region.from_bytes_linear_v2 (c7Header ++ (k + 1) :: tail) = none ∧
      ∀ e : ParseError, e = ParseError.ReadError ∨ e = ParseError.HeaderError ∨
        e = ParseError.VersionError := by
  constructor
  · have hlen : (c7Header ++ (k + 1) :: tail).length = (154 + tail.length) + 1 := by
      rw [List.length_append, c7Header_length, List.length_cons]
      omega
    have h08 : slice (c7Header ++ (k + 1) :: tail) 0 8 =
        some (beBytes8 Region.linearMagic) := by
      rw [slice_append_left _ _ _ _ (by rw [c7Header_length]; omega)]
      decide
    have h8 : byteAt (c7Header ++ (k + 1) :: tail) 8 = some 3 := by
      rw [byteAt_append_left _ _ _ (by rw [c7Header_length]; omega)]
      decide
    have h9 : slice (c7Header ++ (k + 1) :: tail) 9 8 = some (be64 0) := by
      rw [slice_append_left _ _ _ _ (by rw [c7Header_length]; omega)]
      decide
    have h17 : byteAt (c7Header ++ (k + 1) :: tail) 17 = some 0 := by
      rw [byteAt_append_left _ _ _ (by rw [c7Header_length]; omega)]
      decide
    have h18 : slice (c7Header ++ (k + 1) :: tail) 18 4 = some (be32 0) := by
      rw [slice_append_left _ _ _ _ (by rw [c7Header_length]; omega)]
      decide
    have h22 : slice (c7Header ++ (k + 1) :: tail) 22 4 = some (be32 0) := by
      rw [slice_append_left _ _ _ _ (by rw [c7Header_length]; omega)]
      decide
    have hb1 : byteAt (c7Header ++ (k + 1) :: tail) (26 + 128) = some (k + 1) := by
      rw [byteAt_append_right _ _ _ (by rw [c7Header_length])]
      rw [c7Header_length]
      rfl
    have hb2 : byteAt (c7Header ++ (k + 1) :: tail)
        (26 + 128 + 1 + (k + 1) + 4) = none := by
      apply byteAt_eq_none
      rw [hlen]
      omega
    have hsf : Region.skipFeatures (c7Header ++ (k + 1) :: tail) (26 + 128)
        ((c7Header ++ (k + 1) :: tail).length + 1) = none := by
      rw [skipFeatures_step _ _ _ _ hb1, hlen, skipFeatures_oob _ _ _ hb2]
    simp only [Region.from_bytes_linear_v2, h08, h8, h9, h17, h18, h22, hsf,
      optBind_some, optBind_none]
    rfl
  · intro e
    cases e with
    | ReadError => exact Or.inl rfl
    | HeaderError => exact Or.inr (Or.inl rfl)
    | VersionError => exact Or.inr (Or.inr rfl)

end BufferedLinear

namespace BufferedLinear

/-- C7 counterexample: a truncated linear v2 input (valid header, then a
feature descriptor announcing a 5-byte name with no bytes behind it)
makes `from_bytes_linear_v2` panic (`none`) instead of returning any
typed error, so the decode is not total and no BufferUnderrun error is
produced. -/
theorem c7_counterexample :
    Region.from_bytes_linear_v2 (c7Header ++ [5]) = none := by
  decide

/-- C7 witness: the truncation family instantiated at a 6-byte name
claim with nothing after it. -/
theorem c7_truncated_feature_panics_witness :
    ([] : List Nat).length ≤ 5 + 4 ∧
      (Region.from_bytes_linear_v2 (c7Header ++ (5 + 1) :: []) = none ∧
        ∀ e : ParseError, e = ParseError.ReadError ∨ e = ParseError.HeaderError ∨
          e = ParseError.VersionError) :=
  ⟨by decide, c7_truncated_feature_panics 5 [] (by decide)⟩

end BufferedLinear
